import Mathlib

/-!
Verification development for the FetchBox ingest pipeline and its durable
substrate.  The Rust source is shallowly embedded: pure Rust functions become
Lean functions, the stateful stores (fjall key-value partitions) become
association lists with explicit state passing, and machine integers become
Nat.  External collaborators (the object store, the mime parser, protobuf
byte encoding) are modelled at the interface level, as the specification
places them out of scope.
-/

set_option maxRecDepth 10000

namespace FetchBox

/-- Overwriting insert into an association list, modelling a key-value store
put: the new binding shadows any previous binding of the same key. -/
def kvPut {κ α : Type} [DecidableEq κ] (l : List (κ × α)) (k : κ) (v : α) :
    List (κ × α) :=
  (k, v) :: l.filter (fun p => ¬ p.1 = k)

/-- Point lookup in an association list, modelling a key-value store get. -/
def kvGet {κ α : Type} [DecidableEq κ] (l : List (κ × α)) (k : κ) : Option α :=
  (l.find? (fun p => decide (p.1 = k))).map Prod.snd

/-- Decidable equality for Except results, used to evaluate the embedded
fallible operations on concrete inputs. -/
instance exceptDecEq {ε α : Type} [DecidableEq ε] [DecidableEq α] :
    DecidableEq (Except ε α) := fun x y =>
  match x, y with
  | .ok a, .ok b =>
    if h : a = b then .isTrue (by rw [h]) else .isFalse (by simp [h])
  | .error a, .error b =>
    if h : a = b then .isTrue (by rw [h]) else .isFalse (by simp [h])
  | .ok _, .error _ => .isFalse (by simp)
  | .error _, .ok _ => .isFalse (by simp)

/-- Byte length of a string under UTF-8 encoding, modelling Rust str::len
(which counts bytes, not characters). -/
def utf8Len (s : String) : Nat := (s.data.map Char.utf8Size).sum

/-- Byte-level test that the UTF-8 encoding of s starts with the ASCII
string p, modelling Rust str::starts_with for an ASCII pattern. -/
def strStartsWith (s p : String) : Bool := p.data.isPrefixOf s.data

/-- Model of serde_json::Value: an arbitrary JSON document. -/
inductive Json where
  | null : Json
  | bool (b : Bool) : Json
  | num (n : Int) : Json
  | str (s : String) : Json
  | arr (elems : List Json) : Json
  | obj (fields : List (String × Json)) : Json

/-- Model of serde_json::Value::is_object. -/
def Json.is_object : Json → Bool
  | .obj _ => true
  | _ => false

namespace Api

/-- Model of api::models::Resource. The headers and tags BTreeMaps are
modelled as association lists in key order. -/
structure Resource where
  name : String
  url : String
  headers : List (String × String)
  tags : List (String × String)
deriving DecidableEq

/-- Model of api::models::StorageConfig (the client-supplied manifest
storage section).  Field resourceKeyPrefix models resource_key_prefix. -/
structure StorageConfig where
  manifest_file : String
  resourceKeyPrefix : String
deriving DecidableEq

/-- Model of api::models::Manifest. -/
structure Manifest where
  manifest_version : String
  storage : StorageConfig
  metadata : Json
  resources : List Resource
  attributes : Option Json

/-- Model of api::models::JobStatus. -/
inductive JobStatus where
  | Queued | InProgress | Completed | Failed
deriving DecidableEq

/-- Model of api::models::JobError. -/
structure JobError where
  resource_name : String
  code : String
  message : String
  timestamp : Nat
deriving DecidableEq

/-- Model of api::models::JobSnapshot. Timestamps are Unix seconds. -/
structure JobSnapshot where
  job_id : String
  status : JobStatus
  created_at : Nat
  updated_at : Nat
  resource_total : Nat
  resource_completed : Nat
  resource_failed : Nat
  manifest_key : String
  errors : List JobError
  tenant : String
deriving DecidableEq

/-- Model of api::models::JobAcceptedResponse. -/
structure JobAcceptedResponse where
  job_id : String
  manifest_key : String
  resource_count : Nat
deriving DecidableEq

/-- Model of api::error::ApiError. -/
inductive ApiError where
  | InvalidPayload (msg : String)
  | PayloadTooLarge (n : Nat)
  | UnsupportedJobType (t : String)
  | NotFound (msg : String)
  | Internal (msg : String)
deriving DecidableEq

/-- Model of ApiError::status_code. -/
def ApiError.status_code : ApiError → Nat
  | .InvalidPayload _ => 400
  | .PayloadTooLarge _ => 413
  | .UnsupportedJobType _ => 403
  | .NotFound _ => 404
  | .Internal _ => 500

/-- Model of api::validation::ManifestValidationError. -/
inductive ManifestValidationError where
  | UnsupportedVersion
  | InvalidMetadata
  | InvalidResourceCount
  | ResourceNameTooLong (name : String)
  | DuplicateResourceNames
  | InvalidResourceUrl (name : String)
  | HeaderLimitExceeded (name : String)
  | HeaderValueTooLarge (name key : String)
  | TagLimitExceeded (name : String)
  | TagValueTooLarge (name key : String)
  | InvalidAttributes
deriving DecidableEq

/-- The first header entry of a resource whose value exceeds 1024 bytes or
contains a NUL byte, mirroring the header loop of validate_manifest. -/
def firstBadHeader (headers : List (String × String)) : Option String :=
  (headers.find? (fun kv =>
    utf8Len kv.2 > 1024 || kv.2.data.any (fun c => c = Char.ofNat 0))).map Prod.fst

/-- The first tag entry of a resource whose value exceeds 1024 bytes,
mirroring the tag loop of validate_manifest. -/
def firstBadTag (tags : List (String × String)) : Option String :=
  (tags.find? (fun kv => utf8Len kv.2 > 1024)).map Prod.fst

/-- The per-resource loop of api::validation::validate_manifest: name length,
name uniqueness threaded through the seen set, url scheme, header limits,
tag limits, first failure short-circuiting. -/
def validate_resources :
    List Resource → List String → Except ManifestValidationError Unit
  | [], _ => .ok ()
  | r :: rest, seen =>
    if utf8Len r.name > 128 then
      .error (.ResourceNameTooLong r.name)
    else if seen.contains r.name then
      .error .DuplicateResourceNames
    else if ¬ (strStartsWith r.url "http://" || strStartsWith r.url "https://") then
      .error (.InvalidResourceUrl r.name)
    else if r.headers.length > 10 then
      .error (.HeaderLimitExceeded r.name)
    else
      match firstBadHeader r.headers with
      | some key => .error (.HeaderValueTooLarge r.name key)
      | none =>
        if r.tags.length > 10 then
          .error (.TagLimitExceeded r.name)
        else
          match firstBadTag r.tags with
          | some key => .error (.TagValueTooLarge r.name key)
          | none => validate_resources rest (r.name :: seen)

/-- Model of api::validation::validate_manifest. -/
def validate_manifest (m : Manifest) : Except ManifestValidationError Unit :=
  if ¬ m.manifest_version = "v1" then
    .error .UnsupportedVersion
  else if ¬ m.metadata.is_object then
    .error .InvalidMetadata
  else if m.resources.length < 1 || m.resources.length > 1000 then
    .error .InvalidResourceCount
  else
    match m.attributes with
    | some a =>
      if ¬ a.is_object then .error .InvalidAttributes
      else validate_resources m.resources []
    | none => validate_resources m.resources []

end Api

namespace Ledger

/-- Little-endian decimal digits helper: fuel-indexed so that the recursion
is structural and kernel-reducible.  With fuel at least n the result is the
standard base-10 digit list of n (empty for 0). -/
def decDigitsAux : Nat → Nat → List Nat
  | _, 0 => []
  | 0, _ + 1 => []
  | fuel + 1, n + 1 => ((n + 1) % 10) :: decDigitsAux fuel ((n + 1) / 10)

/-- Little-endian decimal digits of n (empty for 0). -/
def decDigits (n : Nat) : List Nat := decDigitsAux n n

/-- Big-endian decimal digit list of n, zero-padded on the left to width w,
modelling the Rust format specifier with zero fill and minimum width w
(digits beyond w are kept, exactly as Rust does). -/
def fmtPad (w : Nat) (n : Nat) : List Nat :=
  let ds := if n = 0 then [0] else (decDigits n).reverse
  List.replicate (w - ds.length) 0 ++ ds

/-- Character codes of a string; for the ASCII framing bytes of the key
layouts these coincide with the UTF-8 bytes. -/
def strCodes (s : String) : List Nat := s.data.map Char.toNat

/-- Model of ledger::partitions::encode_job_key. -/
def encode_job_key (job_id : String) : String := "job:" ++ job_id

/-- Model of ledger::partitions::encode_idem_key. -/
def encode_idem_key (key : String) : String := "idem:" ++ key

/-- Model of ledger::partitions::encode_meta_key. -/
def encode_meta_key (key : String) : String := "meta:" ++ key

/-- Model of ledger::partitions::encode_log_key as the byte string
log:job_id:offset with the offset printed as zero-padded 16-wide decimal;
the result is the byte list of the key. -/
def encode_log_key (job_id : String) (offset : Nat) : List Nat :=
  strCodes ("log:" ++ job_id ++ ":") ++ (fmtPad 16 offset).map (fun d => 48 + d)

/-- Numeric value of a big-endian decimal digit list, used to relate the
formatted log offsets back to the numbers they print. -/
def valDigits (l : List Nat) : Nat := l.foldl (fun acc d => 10 * acc + d) 0

/-- Strict lexicographic order on byte lists, modelling the ordering a
key-value store applies to keys (Rust Ord on byte vectors). -/
def bytesLt : List Nat → List Nat → Bool
  | [], [] => false
  | [], _ :: _ => true
  | _ :: _, [] => false
  | a :: as, b :: bs => if a < b then true else if a = b then bytesLt as bs else false

/-- A stored value in the jobs partition: JSON bytes that either deserialize
into a snapshot or fail to (corrupt), modelling the serde round trip. -/
inductive JobVal where
  | ok (s : Api.JobSnapshot)
  | corrupt
deriving DecidableEq

/-- Model of ledger::store::FjallStore: the four partitions, each an
association list from encoded key to stored value. -/
structure FjallStore where
  jobs : List (String × JobVal)
  logs : List (String × String)
  idempotency : List (String × String)
  metadata : List (String × String)
deriving DecidableEq

/-- Model of FjallStore::upsert: unconditional overwrite of the JSON
snapshot under job:job_id. -/
def FjallStore.upsert (st : FjallStore) (snapshot : Api.JobSnapshot) : FjallStore :=
  { st with jobs := kvPut st.jobs (encode_job_key snapshot.job_id) (JobVal.ok snapshot) }

/-- Model of FjallStore::get: Ok(None) when the key is absent, Ok(Some s)
when the stored bytes deserialize, Err on corrupt bytes. -/
def FjallStore.get (st : FjallStore) (job_id : String) :
    Except Unit (Option Api.JobSnapshot) :=
  match kvGet st.jobs (encode_job_key job_id) with
  | none => .ok none
  | some (JobVal.ok s) => .ok (some s)
  | some JobVal.corrupt => .error ()

/-- Model of FjallStore::remember_idempotency. -/
def FjallStore.remember_idempotency (st : FjallStore) (key job_id : String) : FjallStore :=
  { st with idempotency := kvPut st.idempotency (encode_idem_key key) job_id }

/-- Model of FjallStore::get_idempotent (from_utf8_lossy never fails, so the
lookup is total). -/
def FjallStore.get_idempotent (st : FjallStore) (key : String) : Option String :=
  kvGet st.idempotency (encode_idem_key key)

/-- Retention constant from ledger::pruning. -/
def RETENTION_JOBS_DAYS : Nat := 30

/-- Retention constant from ledger::pruning. -/
def RETENTION_LOGS_DAYS : Nat := 30

/-- Retention constant from ledger::pruning. -/
def RETENTION_IDEMPOTENCY_DAYS : Nat := 14

/-- Model of ledger::pruning::PruneStats. -/
structure PruneStats where
  jobs_pruned : Nat
  logs_pruned : Nat
  idempotency_pruned : Nat
deriving DecidableEq

/-- Model of ledger::pruning::prune_jobs: the source computes a cutoff but
defers timestamp-based removal (prunes nothing); it only writes the
last_prune_jobs cursor and returns 0. -/
def prune_jobs (st : FjallStore) (now : Nat) : FjallStore × Nat :=
  ({ st with
      metadata := kvPut st.metadata (encode_meta_key "last_prune_jobs") (Nat.repr now) }, 0)

/-- Model of ledger::pruning::prune_logs: removal deferred in the source; it
only writes the last_prune_logs cursor and returns 0. -/
def prune_logs (st : FjallStore) (now : Nat) : FjallStore × Nat :=
  ({ st with
      metadata := kvPut st.metadata (encode_meta_key "last_prune_logs") (Nat.repr now) }, 0)

/-- Model of ledger::pruning::prune_idempotency: drains the whole partition
when the stored last_prune_idem cursor is missing, or parses to a value
older than the idempotency retention window; then writes the cursor. -/
def prune_idempotency (st : FjallStore) (now : Nat) : FjallStore × Nat :=
  let cutoff := now - RETENTION_IDEMPOTENCY_DAYS * 86400
  let drain :=
    match kvGet st.metadata (encode_meta_key "last_prune_idem") with
    | some stored =>
      match stored.toNat? with
      | some last => decide (last < cutoff)
      | none => false
    | none => true
  let cleared := if drain then ([], st.idempotency.length) else (st.idempotency, 0)
  ({ st with
      idempotency := cleared.1,
      metadata := kvPut st.metadata (encode_meta_key "last_prune_idem") (Nat.repr now) },
    cleared.2)

/-- Model of ledger::pruning::prune_expired: runs the three partition prunes
in order and collects their counts. -/
def prune_expired (st : FjallStore) (now : Nat) : FjallStore × PruneStats :=
  let pj := prune_jobs st now
  let pl := prune_logs pj.1 now
  let pi := prune_idempotency pl.1 now
  (pi.1, { jobs_pruned := pj.2, logs_pruned := pl.2, idempotency_pruned := pi.2 })

end Ledger

namespace Proto

/-- Model of the protobuf HttpHeader message. -/
structure HttpHeader where
  name : String
  value : String
deriving DecidableEq

/-- Model of the protobuf StorageHint message.  Field keyPrefix models
key_prefix. -/
structure StorageHint where
  bucket : String
  keyPrefix : String
  metadata : List (String × String)
deriving DecidableEq

/-- Model of the protobuf ProxyHint message. -/
structure ProxyHint where
  primary_pool : String
  fallbacks : List String
deriving DecidableEq

/-- Model of the protobuf TaskAttributes message; extra holds the serialized
attributes document (serialization modelled as the document itself). -/
structure TaskAttributes where
  tags : List (String × String)
  checksum_hint : String
  mime_hint : String
  extra : Option Json

/-- Model of the protobuf DownloadTask message. -/
structure DownloadTask where
  job_id : String
  job_type : String
  resource_id : String
  url : String
  headers : List HttpHeader
  storage_hint : Option StorageHint
  proxy_hint : Option ProxyHint
  attempt : Nat
  tenant : String
  trace_id : String
  manifest_key : String
  attributes : Option TaskAttributes

/-- Model of the protobuf DeadLetterTask message. -/
structure DeadLetterTask where
  task : Option DownloadTask
  failure_code : String
  failure_message : String
  attempts : Nat
  failed_at_ms : Nat

end Proto

namespace Queue

/-- Big-endian byte decoding of a u64, modelling u64::from_be_bytes. -/
def u64_from_be_bytes (bs : List Nat) : Nat :=
  bs.foldl (fun acc b => acc * 256 + b) 0

/-- Big-endian byte encoding of a u64, modelling u64::to_be_bytes. -/
def u64_to_be_bytes (n : Nat) : List Nat :=
  (List.range 8).map (fun i => n / 256 ^ (7 - i) % 256)

/-- The durable content of the queue keyspace: the tasks and dlq partitions
(sequence key to decoded protobuf value, the protobuf round trip being
modelled as the identity) and the raw bytes stored under metadata/next_seq. -/
structure QueueDisk where
  tasks : List (Nat × Proto.DownloadTask)
  dlq : List (Nat × Proto.DeadLetterTask)
  next_seq_bytes : Option (List Nat)

/-- Model of queue::store::FjallQueue: the durable keyspace plus the
process-local atomic sequence counter. -/
structure FjallQueue where
  disk : QueueDisk
  seq_counter : Nat

/-- Model of FjallQueue::open: the counter is initialized from
metadata/next_seq alone (0 when the entry is absent or not 8 bytes long);
no reconciliation against existing task or dlq keys is performed. -/
def FjallQueue.open (d : QueueDisk) : FjallQueue :=
  { disk := d,
    seq_counter :=
      match d.next_seq_bytes with
      | some bs => if bs.length = 8 then u64_from_be_bytes bs else 0
      | none => 0 }

/-- Model of FjallQueue::enqueue: fetch-and-add the counter, insert the task
under the obtained sequence, persist seq+1 under metadata/next_seq. -/
def FjallQueue.enqueue (q : FjallQueue) (task : Proto.DownloadTask) : Nat × FjallQueue :=
  let seq := q.seq_counter
  (seq,
    { disk :=
        { q.disk with
          tasks := kvPut q.disk.tasks seq task,
          next_seq_bytes := some (u64_to_be_bytes (seq + 1)) },
      seq_counter := seq + 1 })

/-- Model of FjallQueue::current_seq. -/
def FjallQueue.current_seq (q : FjallQueue) : Nat := q.seq_counter

/-- Follows the spec words of section 4.2: on open the counter MUST be set to
max(persisted metadata, 1 + max existing key in tasks and dlq).  This is the
comparison definition for the reconciliation requirement, written from the
spec, not from the source. -/
def specOpenCounter (d : QueueDisk) : Nat :=
  let persisted :=
    match d.next_seq_bytes with
    | some bs => if bs.length = 8 then u64_from_be_bytes bs else 0
    | none => 0
  let succOfMaxKey :=
    ((d.tasks.map Prod.fst) ++ (d.dlq.map Prod.fst)).foldl (fun acc k => max acc (k + 1)) 0
  max persisted succOfMaxKey

end Queue

namespace Config

/-- Model of config::resolver::ResolverError. -/
inductive ResolverError where
  | PoolNotFound (name : String)
  | CycleDetected (path : String)
deriving DecidableEq

/-- Model of config::models::ProxyEndpoint. -/
structure ProxyEndpoint where
  uri : String
deriving DecidableEq

/-- Model of config::models::ProxyPoolConfig. -/
structure ProxyPoolConfig where
  primary : List String
  fallbacks : List String
  retry_backoff_ms : Nat
  max_retries : Nat
deriving DecidableEq

/-- Model of config::models::ResolvedProxyPool. -/
structure ResolvedProxyPool where
  tiers : List (List ProxyEndpoint)
deriving DecidableEq

/-- Model of config::resolver::ProxyGraph: the pools map as an association
list. -/
structure ProxyGraph where
  pools : List (String × ProxyPoolConfig)

/-- Pool-name normalization at the head of resolve_recursive: strip a
leading pools/ segment when present. -/
def stripPoolsPrefix (s : String) : String :=
  if "pools/".data.isPrefixOf s.data then String.mk (s.data.drop 6) else s

/-- One step of the fallback loop of resolve_recursive: thread the visited
set and tiers through the recursive call, short-circuiting once an error
(or fuel exhaustion) has occurred. -/
def resolve_step
    (f : String → List String → List (List ProxyEndpoint) →
      Option (Except ResolverError (List String × List (List ProxyEndpoint))))
    (acc : Option (Except ResolverError (List String × List (List ProxyEndpoint))))
    (fb : String) :
    Option (Except ResolverError (List String × List (List ProxyEndpoint))) :=
  match acc with
  | some (Except.ok (v, t)) => f fb v t
  | other => other

/-- Model of ProxyGraph::resolve_recursive.  The visited set (a HashSet in
the source, inserted into and never removed from) is threaded through the
whole traversal, including across sibling fallbacks.  The Nat argument is
recursion fuel standing in for the Rust call stack: each nested recursion
level consumes one unit, and fuel exhaustion returns none. -/
def resolve_recursive (g : ProxyGraph) :
    Nat → String → List String → List (List ProxyEndpoint) →
    Option (Except ResolverError (List String × List (List ProxyEndpoint)))
  | 0, _, _, _ => none
  | fuel + 1, current, visited, tiers =>
    let pool_name := stripPoolsPrefix current
    if visited.contains pool_name then
      some (Except.error (ResolverError.CycleDetected pool_name))
    else
      match kvGet g.pools pool_name with
      | none => some (Except.error (ResolverError.PoolNotFound pool_name))
      | some pool =>
        pool.fallbacks.foldl
          (resolve_step (fun fb v t => resolve_recursive g fuel fb v t))
          (some (Except.ok (pool_name :: visited,
            tiers ++ [pool.primary.map (fun uri => { uri := uri })])))

/-- Model of ProxyGraph::resolve, run with enough fuel for any input (one
more than the number of declared pools; the sufficiency theorem below shows
this never exhausts). -/
def ProxyGraph.resolve (g : ProxyGraph) (pool_name : String) :
    Option (Except ResolverError ResolvedProxyPool) :=
  (resolve_recursive g (g.pools.length + 1) pool_name [] []).map
    (fun r => r.map (fun vt => { tiers := vt.2 }))

/-- The number of declared pool names not yet in the visited set: the
measure that bounds the recursion depth of resolve_recursive. -/
def countNew (g : ProxyGraph) (visited : List String) : Nat :=
  ((g.pools.map Prod.fst).filter (fun n => ! visited.contains n)).length

/-- One step of the spec-words DFS below: thread the set of reached pools
through the recursive call, short-circuiting once a verdict has been
reached. -/
def spec_step
    (f : String → List String → Option (Except ResolverError (List String)))
    (acc : Option (Except ResolverError (List String)))
    (fb : String) : Option (Except ResolverError (List String)) :=
  match acc with
  | some (Except.ok v) => f fb v
  | other => other

/-- Follows the spec words of the cycle characterization: the DFS from a
pool over the fallback graph, tracking only the set of pools reached so
far (never cleared), reporting CycleDetected with the normalized name of
the first pool reached a second time anywhere in the traversal, and
PoolNotFound for the first dangling fallback.  Written from those words as
the comparison definition for the resolver; it keeps no tier bookkeeping. -/
def spec_dfs (g : ProxyGraph) :
    Nat → String → List String →
    Option (Except ResolverError (List String))
  | 0, _, _ => none
  | fuel + 1, current, visited =>
    let pool_name := stripPoolsPrefix current
    if visited.contains pool_name then
      some (Except.error (ResolverError.CycleDetected pool_name))
    else
      match kvGet g.pools pool_name with
      | none => some (Except.error (ResolverError.PoolNotFound pool_name))
      | some pool =>
        pool.fallbacks.foldl
          (spec_step (fun fb v => spec_dfs g fuel fb v))
          (some (Except.ok (pool_name :: visited)))

end Config

namespace Handlers

/-- Model of handlers::types::StorageHint.  Field keyPrefix models
key_prefix. -/
structure StorageHint where
  bucket : String
  keyPrefix : String
  object_metadata : Option (List (String × String))
deriving DecidableEq

/-- Model of handlers::types::ProxyHint. -/
structure ProxyHint where
  primary_pool : String
  fallback_pools : List String
deriving DecidableEq

/-- Model of handlers::registry::ProxyConfig. -/
structure ProxyConfig where
  primary : String
  fallbacks : List String
deriving DecidableEq

/-- Model of handlers::registry::ProxyConfig::to_hint. -/
def ProxyConfig.to_hint (p : ProxyConfig) : ProxyHint :=
  { primary_pool := p.primary, fallback_pools := p.fallbacks }

/-- Model of handlers::registry::StorageConfig.  Field keyPrefix models
key_prefix. -/
structure StorageConfig where
  bucket : String
  keyPrefix : String
deriving DecidableEq

/-- Model of handlers::registry::StorageConfig::to_hint: the key prefix is
the configured prefix, the job id and the resource id, with a slash only
between the job id and the resource id. -/
def StorageConfig.to_hint (s : StorageConfig) (job_id resource_id : String) : StorageHint :=
  { bucket := s.bucket,
    keyPrefix := s.keyPrefix ++ job_id ++ "/" ++ resource_id,
    object_metadata := none }

/-- Model of handlers::registry::HandlerConfig. -/
structure HandlerConfig where
  handler : String
  default_headers : List (String × String)
  proxy : Option ProxyConfig
  storage : Option StorageConfig
  options : Json

/-- Model of handlers::types::ManifestContext. -/
structure ManifestContext where
  job_id : String
  job_type : String
  manifest : Api.Manifest

/-- Model of handlers::types::PreparedManifest. -/
structure PreparedManifest where
  context : ManifestContext
  handler_data : Option Json

/-- Model of handlers::types::DownloadTask (the pre-protobuf task record). -/
structure DownloadTask where
  resource_name : String
  url : String
  http_headers : List (String × String)
  proxy_hint : Option ProxyHint
  storage_hint : Option StorageHint
  tags : List (String × String)
  attributes : Option Json

/-- Model of handlers::types::TaskContext. -/
structure TaskContext where
  job_id : String
  job_type : String
  tenant : String
  manifest_key : String

/-- Ordered insert into a key-sorted association list, replacing an equal
key: one BTreeMap insertion. -/
def btreeInsert (l : List (String × String)) (k v : String) : List (String × String) :=
  match l with
  | [] => [(k, v)]
  | (k0, v0) :: rest =>
    if k < k0 then (k, v) :: (k0, v0) :: rest
    else if k = k0 then (k, v) :: rest
    else (k0, v0) :: btreeInsert rest k v

/-- Model of BTreeMap::extend: fold the update entries into the base map,
the update overriding on key collision. -/
def btreeExtend (base upd : List (String × String)) : List (String × String) :=
  upd.foldl (fun acc kv => btreeInsert acc kv.1 kv.2) base

/-- Model of handlers::types::DownloadTask::from_resource: clone the default
headers, extend with the resource headers (resource overrides), and copy the
resource fields. -/
def DownloadTask.from_resource (resource : Api.Resource)
    (default_headers : List (String × String))
    (storage_hint : Option StorageHint) (proxy_hint : Option ProxyHint) : DownloadTask :=
  { resource_name := resource.name,
    url := resource.url,
    http_headers := btreeExtend default_headers resource.headers,
    proxy_hint := proxy_hint,
    storage_hint := storage_hint,
    tags := resource.tags,
    attributes := none }

/-- Model of handlers::default::DefaultHandler::build_tasks: one task per
resource, storage and proxy hints taken from the handler config when
declared. -/
def build_tasks (config : HandlerConfig) (prepared : PreparedManifest) :
    List DownloadTask :=
  let ctx := prepared.context
  ctx.manifest.resources.map (fun resource =>
    let storage_hint := config.storage.map (fun s => s.to_hint ctx.job_id resource.name)
    let proxy_hint := config.proxy.map ProxyConfig.to_hint
    DownloadTask.from_resource resource config.default_headers storage_hint proxy_hint)

/-- Model of the StorageHint conversion into its protobuf form. -/
def StorageHint.toProto (h : StorageHint) : Proto.StorageHint :=
  { bucket := h.bucket,
    keyPrefix := h.keyPrefix,
    metadata := (h.object_metadata.getD []) }

/-- Model of the ProxyHint conversion into its protobuf form. -/
def ProxyHint.toProto (h : ProxyHint) : Proto.ProxyHint :=
  { primary_pool := h.primary_pool, fallbacks := h.fallback_pools }

/-- Model of handlers::types::DownloadTask::to_proto; the fresh v4 trace
uuid is passed in as a parameter. -/
def DownloadTask.to_proto (t : DownloadTask) (ctx : TaskContext) (trace_id : String) :
    Proto.DownloadTask :=
  { job_id := ctx.job_id,
    job_type := ctx.job_type,
    resource_id := t.resource_name,
    url := t.url,
    headers := t.http_headers.map (fun kv => { name := kv.1, value := kv.2 }),
    storage_hint := t.storage_hint.map StorageHint.toProto,
    proxy_hint := t.proxy_hint.map ProxyHint.toProto,
    attempt := 1,
    tenant := ctx.tenant,
    trace_id := trace_id,
    manifest_key := ctx.manifest_key,
    attributes := some
      { tags := t.tags, checksum_hint := "", mime_hint := "", extra := t.attributes } }

end Handlers

namespace Ingest

/-- An incoming POST /jobs request, after the HTTP framework: the three
header values as received, and the body modelled post-serde as either the
manifest its bytes decode to or none when the bytes are not valid JSON for
the manifest schema. -/
structure IngestRequest where
  content_type : Option String
  tenant : Option String
  idempotency_key : Option String
  body : Option Api.Manifest

/-- Abstraction of api::utils::parse_content_type (which defers to the
external mime crate): the media type before any ; parameter must be
application/json. -/
def content_type_ok (s : String) : Bool :=
  String.mk (s.data.takeWhile (fun c => ¬ c = Char.ofNat 59)) = "application/json"

/-- Display text of a ManifestValidationError as mapped into the 400
response (punctuation of the source messages elided). -/
def validationMessage : Api.ManifestValidationError → String
  | .UnsupportedVersion => "manifest_version must be v1"
  | .InvalidMetadata => "metadata must be an object"
  | .InvalidResourceCount => "resources must contain between 1 and 1000 entries"
  | .ResourceNameTooLong n => "resource name " ++ n ++ " exceeds 128 characters"
  | .DuplicateResourceNames => "resource names must be unique"
  | .InvalidResourceUrl n => "resource " ++ n ++ " must include an http/https url"
  | .HeaderLimitExceeded n => "resource " ++ n ++ " headers exceed limit of 10"
  | .HeaderValueTooLarge n k => "resource " ++ n ++ " header value " ++ k ++ " exceeds 1024 bytes"
  | .TagLimitExceeded n => "tags for resource " ++ n ++ " exceed limit of 10"
  | .TagValueTooLarge n k => "tag value for resource " ++ n ++ " key " ++ k ++ " exceeds 1024 bytes"
  | .InvalidAttributes => "attributes must be an object when present"

/-- Normalization applied to the tenant and idempotency headers:
map(to_owned) then filter(non-empty). -/
def norm_header (v : Option String) : Option String :=
  v.bind (fun s => if s = "" then none else some s)

/-- Model of api::state::AppState as the ingest path uses it: the ledger
store, the queue behind the task broker, the handler registry entry for the
job type default together with its config, the object store (bucket name
and uploaded content), and the two observability counters. -/
structure AppState where
  store : Ledger.FjallStore
  queue : Queue.FjallQueue
  registry_default : Option Handlers.HandlerConfig
  bucket : String
  uploads : List (String × Api.Manifest)
  task_published : Nat
  job_accepted : Nat

/-- The idempotency pre-check of ingest_job (services.rs lines 86 to 98):
with a key present, a hit requires the key to map to a job id and that job
id to deserialize to a snapshot; lookup errors and missing snapshots are
swallowed and treated as a miss. -/
def idem_cached (st : AppState) : Option String → Option Api.JobSnapshot
  | none => none
  | some key =>
    match st.store.get_idempotent key with
    | none => none
    | some existing_job_id =>
      match st.store.get existing_job_id with
      | Except.ok (some snapshot) => some snapshot
      | _ => none

/-- The object key the manifest is uploaded under: the client-controlled
prefix plus file name. -/
def storage_key_of (manifest : Api.Manifest) : String :=
  manifest.storage.resourceKeyPrefix ++ manifest.storage.manifest_file

/-- The manifest_key of the 202 response: scheme, bucket and uploaded key. -/
def manifest_key_of (bucket : String) (manifest : Api.Manifest) : String :=
  "s3://" ++ bucket ++ "/" ++ storage_key_of manifest

/-- The initial snapshot written on the fresh path: Queued, zero progress,
created_at equal to updated_at. -/
def fresh_snapshot (tenant : String) (manifest : Api.Manifest) (job_id : String)
    (now : Nat) (manifest_key : String) : Api.JobSnapshot :=
  { job_id := job_id, status := Api.JobStatus.Queued,
    created_at := now, updated_at := now,
    resource_total := manifest.resources.length,
    resource_completed := 0, resource_failed := 0,
    manifest_key := manifest_key, errors := [], tenant := tenant }

/-- The fresh-submission tail of ingest_job (services.rs lines 107 to 220):
upload the manifest, build the snapshot, record the idempotency mapping
when a key is present, upsert the snapshot, build tasks with the default
handler, enqueue them all and bump the counters.  The fresh v7 job uuid,
the wall clock and the per-task v4 trace uuids are passed in as
parameters. -/
def ingest_fresh (st : AppState) (cfg : Handlers.HandlerConfig) (tenant : String)
    (idempotency_key : Option String) (manifest : Api.Manifest)
    (job_id : String) (now : Nat) (trace : Nat → String) :
    Except Api.ApiError Api.JobAcceptedResponse × AppState :=
  let storage_key := storage_key_of manifest
  let uploads := kvPut st.uploads storage_key manifest
  let manifest_key := manifest_key_of st.bucket manifest
  let snapshot := fresh_snapshot tenant manifest job_id now manifest_key
  let store :=
    match idempotency_key with
    | some key => st.store.remember_idempotency key job_id
    | none => st.store
  let store := store.upsert snapshot
  let prepared : Handlers.PreparedManifest :=
    { context := { job_id := job_id, job_type := "default", manifest := manifest },
      handler_data := none }
  let tasks := Handlers.build_tasks cfg prepared
  let task_context : Handlers.TaskContext :=
    { job_id := job_id, job_type := "default", tenant := tenant,
      manifest_key := manifest_key }
  let queue := tasks.enum.foldl
    (fun q it => (q.enqueue (it.2.to_proto task_context (trace it.1))).2) st.queue
  (Except.ok
    { job_id := job_id, manifest_key := manifest_key,
      resource_count := manifest.resources.length },
    { st with
      store := store, queue := queue, uploads := uploads,
      task_published := st.task_published + tasks.length,
      job_accepted := st.job_accepted + 1 })

/-- Model of api::services::ingest_job, in the exact order of the source:
Content-Type check, handler registry check for the fixed job type default,
tenant header, optional idempotency key, idempotency cache lookup (before
the body is read), body parse, manifest validation, then the fresh path. -/
def ingest_job (st : AppState) (req : IngestRequest) (job_id : String) (now : Nat)
    (trace : Nat → String) :
    Except Api.ApiError Api.JobAcceptedResponse × AppState :=
  match req.content_type with
  | none => (Except.error (Api.ApiError.InvalidPayload "missing Content-Type header"), st)
  | some ct =>
    if ¬ content_type_ok ct then
      (Except.error (Api.ApiError.InvalidPayload ("invalid Content-Type: " ++ ct)), st)
    else
      match st.registry_default with
      | none => (Except.error (Api.ApiError.UnsupportedJobType "default"), st)
      | some cfg =>
        match norm_header req.tenant with
        | none =>
          (Except.error
            (Api.ApiError.InvalidPayload "X-Fetchbox-Tenant header is required"), st)
        | some tenant =>
          let idempotency_key := norm_header req.idempotency_key
          match idem_cached st idempotency_key with
          | some snapshot =>
            (Except.ok
              { job_id := snapshot.job_id,
                manifest_key := snapshot.manifest_key,
                resource_count := snapshot.resource_total }, st)
          | none =>
            match req.body with
            | none =>
              (Except.error (Api.ApiError.InvalidPayload "invalid JSON body"), st)
            | some manifest =>
              match Api.validate_manifest manifest with
              | Except.error e =>
                (Except.error (Api.ApiError.InvalidPayload (validationMessage e)), st)
              | Except.ok _ =>
                ingest_fresh st cfg tenant idempotency_key manifest job_id now trace

end Ingest

/-! Concrete sample inputs used by the witness and counterexample theorems. -/

namespace Samples

/-- A resource that passes every per-resource validation rule. -/
def okResource : Api.Resource :=
  { name := "r1", url := "https://example.com/a",
    headers := [("Accept", "anything")], tags := [("kind", "image")] }

/-- A second valid resource with a distinct name. -/
def okResource2 : Api.Resource :=
  { name := "r2", url := "http://example.com/b", headers := [], tags := [] }

/-- A manifest that passes validate_manifest. -/
def okManifest : Api.Manifest :=
  { manifest_version := "v1",
    storage := { manifest_file := "m.json", resourceKeyPrefix := "p/" },
    metadata := Json.obj [],
    resources := [okResource, okResource2],
    attributes := some (Json.obj []) }

/-- A handler config that declares storage with a key prefix not ending in a
slash. -/
def cfgWithStorage : Handlers.HandlerConfig :=
  { handler := "fetchbox::handlers::DefaultHandler",
    default_headers := [],
    proxy := none,
    storage := some { bucket := "b", keyPrefix := "p" },
    options := Json.obj [] }

/-- The registry default config (handlers::registry::with_defaults): no
storage, no proxy, empty default headers. -/
def cfgDefault : Handlers.HandlerConfig :=
  { handler := "fetchbox::handlers::DefaultHandler",
    default_headers := [],
    proxy := none,
    storage := none,
    options := Json.obj [] }

/-- A manifest with a single resource named r. -/
def oneResourceManifest : Api.Manifest :=
  { manifest_version := "v1",
    storage := { manifest_file := "m.json", resourceKeyPrefix := "p/" },
    metadata := Json.obj [],
    resources := [{ name := "r", url := "https://example.com/a", headers := [], tags := [] }],
    attributes := none }

/-- A prepared manifest for job j over the single-resource manifest. -/
def preparedOne : Handlers.PreparedManifest :=
  { context := { job_id := "j", job_type := "default", manifest := oneResourceManifest },
    handler_data := none }

/-- A protobuf task, as in the queue store unit tests. -/
def sampleTask : Proto.DownloadTask :=
  { job_id := "job1", job_type := "default", resource_id := "res1",
    url := "https://example.com/file", headers := [], storage_hint := none,
    proxy_hint := none, attempt := 1, tenant := "default", trace_id := "trace123",
    manifest_key := "s3://b/p/m.json", attributes := none }

/-- An on-disk queue state left by a crash: a task persisted under key 0 but
the metadata entry for next_seq never made durable. -/
def staleDisk : Queue.QueueDisk :=
  { tasks := [(0, sampleTask)], dlq := [], next_seq_bytes := none }

/-- A snapshot last updated at Unix time 0. -/
def oldSnapshot : Api.JobSnapshot :=
  { job_id := "a", status := .Queued, created_at := 0, updated_at := 0,
    resource_total := 2, resource_completed := 0, resource_failed := 0,
    manifest_key := "s3://b/p/m.json", errors := [], tenant := "t" }

/-- A ledger holding one job and one log entry, both written at Unix time
0. -/
def staleLedger : Ledger.FjallStore :=
  { jobs := [("job:a", Ledger.JobVal.ok oldSnapshot)],
    logs := [("log:a:0000000000000000", "entry")],
    idempotency := [],
    metadata := [] }

/-- A wall-clock instant more than 30 days after Unix time 0. -/
def pruneNow : Nat := 2600000

/-- An empty, freshly opened queue. -/
def emptyQueue : Queue.FjallQueue :=
  Queue.FjallQueue.open { tasks := [], dlq := [], next_seq_bytes := none }

/-- A snapshot cached for job j1. -/
def cachedSnapshot : Api.JobSnapshot :=
  { job_id := "j1", status := .Queued, created_at := 7, updated_at := 7,
    resource_total := 2, resource_completed := 0, resource_failed := 0,
    manifest_key := "s3://b/p/m.json", errors := [], tenant := "t" }

/-- Application state in which idempotency key k1 points at job j1 and j1
has a stored snapshot. -/
def cachedState : Ingest.AppState :=
  { store :=
      { jobs := [("job:j1", Ledger.JobVal.ok cachedSnapshot)],
        logs := [],
        idempotency := [("idem:k1", "j1")],
        metadata := [] },
    queue := emptyQueue,
    registry_default := some cfgDefault,
    bucket := "b",
    uploads := [],
    task_published := 0,
    job_accepted := 0 }

/-- Application state in which idempotency key k1 points at job j1 but the
jobs partition has no entry for j1 (a stale orphan pointer). -/
def orphanState : Ingest.AppState :=
  { store :=
      { jobs := [],
        logs := [],
        idempotency := [("idem:k1", "j1")],
        metadata := [] },
    queue := emptyQueue,
    registry_default := some cfgDefault,
    bucket := "b",
    uploads := [],
    task_published := 0,
    job_accepted := 0 }

/-- A request whose headers are valid and carry idempotency key k1 but
whose body does not parse as a manifest. -/
def badBodyReq : Ingest.IngestRequest :=
  { content_type := some "application/json", tenant := some "t",
    idempotency_key := some "k1", body := none }

/-- A request with valid headers, idempotency key k1 and a valid body. -/
def goodReq : Ingest.IngestRequest :=
  { content_type := some "application/json", tenant := some "t",
    idempotency_key := some "k1", body := some okManifest }

/-- A constant trace-id source for concrete evaluations. -/
def traceFn : Nat → String := fun _ => "trace"

/-- A diamond-shaped, acyclic fallback graph: A falls back to B and C, both
of which fall back to D. -/
def diamondPools : Config.ProxyGraph :=
  { pools :=
      [("A", { primary := ["http://a:8080"], fallbacks := ["B", "C"],
               retry_backoff_ms := 500, max_retries := 3 }),
       ("B", { primary := ["http://b:8080"], fallbacks := ["D"],
               retry_backoff_ms := 500, max_retries := 3 }),
       ("C", { primary := ["http://c:8080"], fallbacks := ["D"],
               retry_backoff_ms := 500, max_retries := 3 }),
       ("D", { primary := ["http://d:8080"], fallbacks := [],
               retry_backoff_ms := 500, max_retries := 3 })] }

/-- A two-pool fallback cycle: A falls back to B and B back to A. -/
def cyclePools : Config.ProxyGraph :=
  { pools :=
      [("A", { primary := ["http://a:8080"], fallbacks := ["B"],
               retry_backoff_ms := 500, max_retries := 3 }),
       ("B", { primary := ["http://b:8080"], fallbacks := ["A"],
               retry_backoff_ms := 500, max_retries := 3 })] }

/-- A linear fallback chain A to B to C: its reachable fallback graph is a
tree, so no pool is ever reached twice. -/
def chainPools : Config.ProxyGraph :=
  { pools :=
      [("A", { primary := ["http://a:8080"], fallbacks := ["B"],
               retry_backoff_ms := 500, max_retries := 3 }),
       ("B", { primary := ["http://b:8080"], fallbacks := ["C"],
               retry_backoff_ms := 500, max_retries := 3 }),
       ("C", { primary := ["http://c:8080"], fallbacks := [],
               retry_backoff_ms := 500, max_retries := 3 })] }

end Samples

/-! Theorems.  Each claim theorem is stated over the embedded definitions
above; helper lemmas are shared. -/

/-- kvGet after kvPut at the same key returns the new value. -/
theorem kvGet_kvPut_same {κ α : Type} [DecidableEq κ] (l : List (κ × α)) (k : κ) (v : α) :
    kvGet (kvPut l k v) k = some v := by
  simp [kvGet, kvPut]

/-- Dropping the entries bound to key k does not change a lookup at another
key. -/
theorem find?_filter_ne {κ α : Type} [DecidableEq κ] (k k2 : κ) (h : ¬ k2 = k) :
    ∀ (l : List (κ × α)),
      List.find? (fun p => decide (p.1 = k2)) (l.filter (fun p => decide ¬ p.1 = k)) =
      List.find? (fun p => decide (p.1 = k2)) l := by
  intro l
  induction l with
  | nil => rfl
  | cons p rest ih =>
    by_cases hp : p.1 = k
    · have hpk2 : (decide (p.1 = k2)) = false := by
        simp only [decide_eq_false_iff_not]
        intro hk
        rw [hk] at hp
        exact h hp
      rw [List.filter_cons]
      rw [if_neg (by simp [hp])]
      rw [ih]
      simp only [List.find?_cons, hpk2]
    · by_cases hpk : p.1 = k2
      · rw [List.filter_cons, if_pos (by simpa using hp)]
        simp [List.find?_cons, hpk]
      · have hd2 : (decide (p.1 = k2)) = false := by simpa using hpk
        rw [List.filter_cons, if_pos (by simpa using hp)]
        simp only [List.find?_cons, hd2]
        exact ih

/-- kvGet after kvPut at a different key is unchanged. -/
theorem kvGet_kvPut_other {κ α : Type} [DecidableEq κ] (l : List (κ × α)) (k k2 : κ)
    (v : α) (h : ¬ k2 = k) : kvGet (kvPut l k v) k2 = kvGet l k2 := by
  have hd : (decide ((k, v).1 = k2)) = false := by
    simp only [decide_eq_false_iff_not]
    intro hk
    exact h hk.symm
  simp only [kvGet, kvPut, List.find?_cons, hd]
  rw [find?_filter_ne k k2 h l]

/-- A header list on which the bad-header scan finds nothing has every value
within 1024 bytes and free of NUL. -/
theorem firstBadHeader_none {headers : List (String × String)}
    (h : Api.firstBadHeader headers = none) :
    ∀ kv ∈ headers, utf8Len kv.2 ≤ 1024 ∧ ∀ c ∈ kv.2.data, ¬ c = Char.ofNat 0 := by
  intro kv hkv
  have hfind : List.find? (fun kv =>
      utf8Len kv.2 > 1024 || kv.2.data.any (fun c => decide (c = Char.ofNat 0)))
      headers = none := by
    simpa [Api.firstBadHeader, Option.map_eq_none'] using h
  have hp := List.find?_eq_none.mp hfind kv hkv
  simp only [Bool.or_eq_true, not_or, decide_eq_true_eq, List.any_eq_true] at hp
  exact ⟨by omega, fun c hc h0 => hp.2 ⟨c, hc, h0⟩⟩

/-- A tag list on which the bad-tag scan finds nothing has every value
within 1024 bytes. -/
theorem firstBadTag_none {tags : List (String × String)}
    (h : Api.firstBadTag tags = none) :
    ∀ kv ∈ tags, utf8Len kv.2 ≤ 1024 := by
  intro kv hkv
  have hfind : List.find? (fun kv => decide (utf8Len kv.2 > 1024)) tags = none := by
    simpa [Api.firstBadTag, Option.map_eq_none'] using h
  have hp := List.find?_eq_none.mp hfind kv hkv
  simp only [decide_eq_true_eq] at hp
  omega

/-- The per-resource validation loop accepts only resources within all the
per-resource limits, with names distinct from each other and from the seen
set. -/
theorem validate_resources_sound (rs : List Api.Resource) :
    ∀ (seen : List String), Api.validate_resources rs seen = .ok () →
      ((∀ r ∈ rs,
        utf8Len r.name ≤ 128 ∧
        (strStartsWith r.url "http://" = true ∨ strStartsWith r.url "https://" = true) ∧
        r.headers.length ≤ 10 ∧
        (∀ kv ∈ r.headers, utf8Len kv.2 ≤ 1024 ∧ ∀ c ∈ kv.2.data, ¬ c = Char.ofNat 0) ∧
        r.tags.length ≤ 10 ∧
        (∀ kv ∈ r.tags, utf8Len kv.2 ≤ 1024)) ∧
      (rs.map Api.Resource.name).Nodup ∧
      (∀ r ∈ rs, seen.contains r.name = false)) := by
  induction rs with
  | nil => intro seen _; simp
  | cons r rest ih =>
    intro seen h
    simp only [Api.validate_resources] at h
    by_cases h1 : utf8Len r.name > 128
    · rw [if_pos h1] at h; exact absurd h (by simp)
    rw [if_neg h1] at h
    by_cases h2 : seen.contains r.name = true
    · rw [if_pos h2] at h; exact absurd h (by simp)
    rw [if_neg h2] at h
    by_cases h3 : (strStartsWith r.url "http://" || strStartsWith r.url "https://") = true
    · rw [if_neg (not_not_intro h3)] at h
      by_cases h4 : r.headers.length > 10
      · rw [if_pos h4] at h; exact absurd h (by simp)
      rw [if_neg h4] at h
      cases hfb : Api.firstBadHeader r.headers with
      | some key => rw [hfb] at h; exact absurd h (by simp)
      | none =>
      rw [hfb] at h
      by_cases h5 : r.tags.length > 10
      · rw [if_pos h5] at h; exact absurd h (by simp)
      rw [if_neg h5] at h
      cases hft : Api.firstBadTag r.tags with
      | some key => rw [hft] at h; exact absurd h (by simp)
      | none =>
      rw [hft] at h
      obtain ⟨hrest, hnodup, hseenrest⟩ := ih (r.name :: seen) h
      refine ⟨?_, ?_, ?_⟩
      · intro x hx
        rcases List.mem_cons.mp hx with hx | hx
        · subst hx
          refine ⟨by omega, ?_, by omega, firstBadHeader_none hfb, by omega,
            firstBadTag_none hft⟩
          rcases Bool.or_eq_true .. |>.mp h3 with hu | hu
          · exact Or.inl hu
          · exact Or.inr hu
        · exact hrest x hx
      · refine List.nodup_cons.mpr ⟨?_, hnodup⟩
        intro hmem
        obtain ⟨x, hxmem, hxname⟩ := List.mem_map.mp hmem
        have := hseenrest x hxmem
        rw [List.contains_cons] at this
        simp [hxname] at this
      · intro x hx
        rcases List.mem_cons.mp hx with hx | hx
        · subst hx
          simpa using h2
        · have := hseenrest x hx
          rw [List.contains_cons] at this
          exact (Bool.or_eq_false_iff.mp this).2
    · rw [if_pos (by simp only [Bool.not_eq_true] at h3; simp [h3])] at h
      exact absurd h (by simp)

/-- C4: every manifest accepted by validate_manifest has version v1, object
metadata, between 1 and 1000 resources, resource names unique within the
manifest and of at most 128 bytes, urls starting with http:// or https://,
at most 10 headers per resource with values of at most 1024 bytes and free
of NUL, and at most 10 tags per resource with values of at most 1024
bytes. -/
theorem validate_manifest_ok_properties (m : Api.Manifest)
    (h : Api.validate_manifest m = .ok ()) :
    m.manifest_version = "v1" ∧
    m.metadata.is_object = true ∧
    1 ≤ m.resources.length ∧ m.resources.length ≤ 1000 ∧
    (m.resources.map Api.Resource.name).Nodup ∧
    ∀ r ∈ m.resources,
      utf8Len r.name ≤ 128 ∧
      (strStartsWith r.url "http://" = true ∨ strStartsWith r.url "https://" = true) ∧
      r.headers.length ≤ 10 ∧
      (∀ kv ∈ r.headers, utf8Len kv.2 ≤ 1024 ∧ ∀ c ∈ kv.2.data, ¬ c = Char.ofNat 0) ∧
      r.tags.length ≤ 10 ∧
      (∀ kv ∈ r.tags, utf8Len kv.2 ≤ 1024) := by
  simp only [Api.validate_manifest] at h
  by_cases h1 : m.manifest_version = "v1"
  · rw [if_neg (not_not_intro h1)] at h
    by_cases h2 : m.metadata.is_object = true
    · rw [if_neg (not_not_intro h2)] at h
      by_cases h3 : (m.resources.length < 1 || m.resources.length > 1000) = true
      · rw [if_pos h3] at h
        exact absurd h (by simp)
      · rw [if_neg h3] at h
        simp only [Bool.or_eq_true, decide_eq_true_eq, not_or, not_lt] at h3
        have hres : Api.validate_resources m.resources [] = .ok () := by
          cases hattr : m.attributes with
          | none => simp only [hattr] at h; exact h
          | some a =>
            simp only [hattr] at h
            by_cases h4 : a.is_object = true
            · rw [if_neg (not_not_intro h4)] at h; exact h
            · rw [if_pos h4] at h; exact absurd h (by simp)
        obtain ⟨hall, hnodup, _⟩ := validate_resources_sound m.resources [] hres
        exact ⟨h1, h2, h3.1, by omega, hnodup, hall⟩
    · rw [if_pos h2] at h
      exact absurd h (by simp)
  · rw [if_pos h1] at h
    exact absurd h (by simp)

/-- Witness for the C4 theorem at a concrete valid manifest. -/
theorem validate_manifest_ok_properties_witness :
    Api.validate_manifest Samples.okManifest = .ok () ∧
    (Samples.okManifest.manifest_version = "v1" ∧
    Samples.okManifest.metadata.is_object = true ∧
    1 ≤ Samples.okManifest.resources.length ∧
    Samples.okManifest.resources.length ≤ 1000 ∧
    (Samples.okManifest.resources.map Api.Resource.name).Nodup ∧
    ∀ r ∈ Samples.okManifest.resources,
      utf8Len r.name ≤ 128 ∧
      (strStartsWith r.url "http://" = true ∨ strStartsWith r.url "https://" = true) ∧
      r.headers.length ≤ 10 ∧
      (∀ kv ∈ r.headers, utf8Len kv.2 ≤ 1024 ∧ ∀ c ∈ kv.2.data, ¬ c = Char.ofNat 0) ∧
      r.tags.length ≤ 10 ∧
      (∀ kv ∈ r.tags, utf8Len kv.2 ≤ 1024)) :=
  ⟨by decide, validate_manifest_ok_properties Samples.okManifest (by decide)⟩

/-- C8 (amended): the storage hint of each task built by the default handler
carries the configured bucket and the key prefix obtained by concatenating
the configured prefix, the job id, a slash and the resource name (no
separator is inserted after the configured prefix); when the config
declares no storage the hint is none. -/
theorem build_tasks_storage_hint (config : Handlers.HandlerConfig)
    (prepared : Handlers.PreparedManifest) :
    (Handlers.build_tasks config prepared).map Handlers.DownloadTask.storage_hint =
      prepared.context.manifest.resources.map (fun r =>
        config.storage.map (fun s =>
          { bucket := s.bucket,
            keyPrefix := s.keyPrefix ++ prepared.context.job_id ++ "/" ++ r.name,
            object_metadata := none })) := by
  simp [Handlers.build_tasks, Handlers.DownloadTask.from_resource,
    Handlers.StorageConfig.to_hint]

/-- Witness for the C8 amended theorem at a storage-declaring config (no
hypotheses in the theorem, but the evaluation pins the concrete shape). -/
theorem build_tasks_storage_hint_witness :
    (Handlers.build_tasks Samples.cfgWithStorage Samples.preparedOne).map
      (fun t => t.storage_hint.map Handlers.StorageHint.keyPrefix) = [some "pj/r"] := by
  decide

/-- C8 counterexample: with configured prefix p, job id j and resource r the
emitted key prefix is pj/r, not the slash-joined p/j/r the claim states. -/
theorem build_tasks_keyPrefix_counterexample :
    (Handlers.build_tasks Samples.cfgWithStorage Samples.preparedOne).map
      (fun t => t.storage_hint.map Handlers.StorageHint.keyPrefix) = [some "pj/r"] ∧
    ¬ "pj/r" = "p" ++ "/" ++ "j" ++ "/" ++ "r" := by
  decide

/-- C2: on a disk state holding a persisted task under key 0 and no durable
metadata entry, FjallQueue::open initializes the counter to 0 where the
spec formula max(persisted metadata, 1 + max existing key) requires 1; the
next enqueue then hands out sequence 0 although key 0 is already persisted
in the tasks partition. -/
theorem queue_open_ignores_existing_keys :
    (Queue.FjallQueue.open Samples.staleDisk).seq_counter = 0 ∧
    Queue.specOpenCounter Samples.staleDisk = 1 ∧
    ((Queue.FjallQueue.open Samples.staleDisk).enqueue Samples.sampleTask).1 = 0 ∧
    (Samples.staleDisk.tasks.map Prod.fst).contains 0 = true := by
  refine ⟨rfl, rfl, rfl, rfl⟩

/-- C7: prune_expired does advance the three cursors to now, but it removes
no job and no log entry: on a ledger holding a job and a log entry whose
logical age exceeds the 30-day retention, both survive the prune and the
returned statistics count zero removals. -/
theorem prune_expired_leaves_expired_entries :
    (Ledger.prune_expired Samples.staleLedger Samples.pruneNow).2 =
      { jobs_pruned := 0, logs_pruned := 0, idempotency_pruned := 0 } ∧
    kvGet (Ledger.prune_expired Samples.staleLedger Samples.pruneNow).1.jobs "job:a" =
      some (Ledger.JobVal.ok Samples.oldSnapshot) ∧
    kvGet (Ledger.prune_expired Samples.staleLedger Samples.pruneNow).1.logs
      "log:a:0000000000000000" = some "entry" ∧
    Samples.pruneNow - Samples.oldSnapshot.updated_at >
      Ledger.RETENTION_JOBS_DAYS * 86400 ∧
    kvGet (Ledger.prune_expired Samples.staleLedger Samples.pruneNow).1.metadata
      (Ledger.encode_meta_key "last_prune_jobs") = some (Nat.repr Samples.pruneNow) ∧
    kvGet (Ledger.prune_expired Samples.staleLedger Samples.pruneNow).1.metadata
      (Ledger.encode_meta_key "last_prune_logs") = some (Nat.repr Samples.pruneNow) ∧
    kvGet (Ledger.prune_expired Samples.staleLedger Samples.pruneNow).1.metadata
      (Ledger.encode_meta_key "last_prune_idem") = some (Nat.repr Samples.pruneNow) := by
  refine ⟨rfl, rfl, rfl, by decide, rfl, rfl, rfl⟩

/-- A present non-empty header survives normalization unchanged. -/
theorem norm_header_some (s : String) (h : ¬ s = "") :
    Ingest.norm_header (some s) = some s := by
  simp [Ingest.norm_header, h]

/-- An ingest request whose headers pass and whose normalized idempotency
key hits the cache is answered 202 from the stored snapshot with the state
unchanged, whatever the body holds; the body is never consulted. -/
theorem ingest_hit (st : Ingest.AppState) (req : Ingest.IngestRequest)
    (j : String) (now : Nat) (tr : Nat → String) (ct : String) (snap : Api.JobSnapshot)
    (hct : req.content_type = some ct) (hctok : Ingest.content_type_ok ct = true)
    (hreg : ∃ cfg, st.registry_default = some cfg)
    (hten : ∃ t, req.tenant = some t ∧ ¬ t = "")
    (hhit : Ingest.idem_cached st (Ingest.norm_header req.idempotency_key) = some snap) :
    Ingest.ingest_job st req j now tr =
      (Except.ok
        { job_id := snap.job_id,
          manifest_key := snap.manifest_key,
          resource_count := snap.resource_total }, st) := by
  obtain ⟨cfg, hreg⟩ := hreg
  obtain ⟨t, htv, htnz⟩ := hten
  simp only [Ingest.ingest_job, hct, hreg]
  rw [if_neg (not_not_intro hctok)]
  simp only [htv, norm_header_some t htnz, hhit]

/-- Inversion of an accepted ingest: the registry had the default handler,
and the request either hit the idempotency cache (state unchanged, response
from the snapshot) or went down the fresh path with a parsed, validated
body. -/
theorem ingest_ok_cases (st : Ingest.AppState) (req : Ingest.IngestRequest)
    (j : String) (now : Nat) (tr : Nat → String)
    (r : Api.JobAcceptedResponse) (st2 : Ingest.AppState)
    (hok : Ingest.ingest_job st req j now tr = (Except.ok r, st2)) :
    (∃ cfg, st.registry_default = some cfg) ∧
    ((∃ snap, Ingest.idem_cached st (Ingest.norm_header req.idempotency_key) = some snap ∧
        r = { job_id := snap.job_id, manifest_key := snap.manifest_key,
              resource_count := snap.resource_total } ∧ st2 = st) ∨
      (Ingest.idem_cached st (Ingest.norm_header req.idempotency_key) = none ∧
        ∃ cfg t m, st.registry_default = some cfg ∧
          Ingest.norm_header req.tenant = some t ∧
          req.body = some m ∧ Api.validate_manifest m = Except.ok () ∧
          Ingest.ingest_fresh st cfg t (Ingest.norm_header req.idempotency_key)
            m j now tr = (Except.ok r, st2))) := by
  cases hct : req.content_type with
  | none =>
    simp only [Ingest.ingest_job, hct] at hok
    exact absurd hok (by simp)
  | some ct =>
    simp only [Ingest.ingest_job, hct] at hok
    by_cases hctok : Ingest.content_type_ok ct = true
    · rw [if_neg (not_not_intro hctok)] at hok
      cases hreg : st.registry_default with
      | none =>
        rw [hreg] at hok
        exact absurd hok (by simp)
      | some cfg =>
        rw [hreg] at hok
        cases hten : Ingest.norm_header req.tenant with
        | none =>
          simp only [hten] at hok
          exact absurd hok (by simp)
        | some t =>
          simp only [hten] at hok
          cases hcache :
              Ingest.idem_cached st (Ingest.norm_header req.idempotency_key) with
          | some snap =>
            simp only [hcache] at hok
            rw [Prod.mk.injEq] at hok
            obtain ⟨h1, h2⟩ := hok
            refine ⟨⟨cfg, rfl⟩, Or.inl ⟨snap, rfl, ?_, h2.symm⟩⟩
            exact (Except.ok.inj h1).symm
          | none =>
            simp only [hcache] at hok
            cases hbody : req.body with
            | none =>
              simp only [hbody] at hok
              exact absurd hok (by simp)
            | some m =>
              simp only [hbody] at hok
              cases hval : Api.validate_manifest m with
              | error e =>
                simp only [hval] at hok
                exact absurd hok (by simp)
              | ok u =>
                cases u
                simp only [hval] at hok
                exact ⟨⟨cfg, rfl⟩,
                  Or.inr ⟨rfl, cfg, t, m, rfl, rfl, rfl, hval, hok⟩⟩
    · rw [if_pos hctok] at hok
      exact absurd hok (by simp)

/-- The response of the fresh path: 202 with the fresh job id, the manifest
key and the resource count of the submitted manifest. -/
theorem ingest_fresh_fst (st : Ingest.AppState) (cfg : Handlers.HandlerConfig)
    (t : String) (keyOpt : Option String) (m : Api.Manifest) (j : String)
    (now : Nat) (tr : Nat → String) :
    (Ingest.ingest_fresh st cfg t keyOpt m j now tr).1 =
      Except.ok
        { job_id := j,
          manifest_key := Ingest.manifest_key_of st.bucket m,
          resource_count := m.resources.length } := rfl

/-- The ledger store of the fresh path: idempotency record (when a key is
present) followed by the snapshot upsert. -/
theorem ingest_fresh_store (st : Ingest.AppState) (cfg : Handlers.HandlerConfig)
    (t : String) (keyOpt : Option String) (m : Api.Manifest) (j : String)
    (now : Nat) (tr : Nat → String) :
    (Ingest.ingest_fresh st cfg t keyOpt m j now tr).2.store =
      (match keyOpt with
        | some k => st.store.remember_idempotency k j
        | none => st.store).upsert
        (Ingest.fresh_snapshot t m j now (Ingest.manifest_key_of st.bucket m)) := rfl

/-- The fresh path does not change the registry. -/
theorem ingest_fresh_registry (st : Ingest.AppState) (cfg : Handlers.HandlerConfig)
    (t : String) (keyOpt : Option String) (m : Api.Manifest) (j : String)
    (now : Nat) (tr : Nat → String) :
    (Ingest.ingest_fresh st cfg t keyOpt m j now tr).2.registry_default =
      st.registry_default := rfl

/-- Reading back the job just upserted yields exactly that snapshot. -/
theorem get_upsert_self (st : Ledger.FjallStore) (snap : Api.JobSnapshot) :
    (st.upsert snap).get snap.job_id = .ok (some snap) := by
  simp [Ledger.FjallStore.get, Ledger.FjallStore.upsert, kvGet_kvPut_same]

/-- Upserting a snapshot does not change the idempotency partition. -/
theorem get_idempotent_upsert (st : Ledger.FjallStore) (snap : Api.JobSnapshot)
    (k : String) : (st.upsert snap).get_idempotent k = st.get_idempotent k := rfl

/-- Reading back a just-remembered idempotency key yields the job id. -/
theorem get_idempotent_remember_same (st : Ledger.FjallStore) (k j : String) :
    (st.remember_idempotency k j).get_idempotent k = some j := by
  simp [Ledger.FjallStore.get_idempotent, Ledger.FjallStore.remember_idempotency,
    kvGet_kvPut_same]

/-- Remembering an idempotency key does not change the jobs partition. -/
theorem get_remember (st : Ledger.FjallStore) (k j : String) (jid : String) :
    (st.remember_idempotency k j).get jid = st.get jid := rfl

/-- C6 (amended): the idempotency lookup runs after the header checks but
before the body is read, parsed or validated: a request with valid headers
whose normalized idempotency key hits the cache is answered 202 from the
stored snapshot with no state change, for every body, including bodies
that fail to parse or validate. -/
theorem idem_lookup_before_body (st : Ingest.AppState) (req : Ingest.IngestRequest)
    (j : String) (now : Nat) (tr : Nat → String) (ct : String) (snap : Api.JobSnapshot)
    (hct : req.content_type = some ct) (hctok : Ingest.content_type_ok ct = true)
    (hreg : ∃ cfg, st.registry_default = some cfg)
    (hten : ∃ t, req.tenant = some t ∧ ¬ t = "")
    (hhit : Ingest.idem_cached st (Ingest.norm_header req.idempotency_key) = some snap) :
    Ingest.ingest_job st req j now tr =
      (Except.ok
        { job_id := snap.job_id,
          manifest_key := snap.manifest_key,
          resource_count := snap.resource_total }, st) :=
  ingest_hit st req j now tr ct snap hct hctok hreg hten hhit

/-- Witness for the C6 amended theorem: a cached key and an unparsable body
still produce the cached 202. -/
theorem idem_lookup_before_body_witness :
    Samples.badBodyReq.content_type = some "application/json" ∧
    Ingest.content_type_ok "application/json" = true ∧
    Samples.badBodyReq.body = none ∧
    Ingest.ingest_job Samples.cachedState Samples.badBodyReq "jNew" 9 Samples.traceFn =
      (Except.ok
        { job_id := Samples.cachedSnapshot.job_id,
          manifest_key := Samples.cachedSnapshot.manifest_key,
          resource_count := Samples.cachedSnapshot.resource_total },
       Samples.cachedState) :=
  ⟨rfl, by decide, rfl,
    idem_lookup_before_body Samples.cachedState Samples.badBodyReq "jNew" 9
      Samples.traceFn "application/json" Samples.cachedSnapshot rfl (by decide)
      ⟨Samples.cfgDefault, rfl⟩ ⟨"t", rfl, by decide⟩ rfl⟩

/-- C6 counterexample: a request with a previously seen idempotency key and
a body that does not parse is answered 202 from the cache, not rejected
with a 4xx as the claim states. -/
theorem idem_hit_invalid_body_counterexample :
    Samples.badBodyReq.body = none ∧
    (Ingest.ingest_job Samples.cachedState Samples.badBodyReq "jNew" 9 Samples.traceFn).1 =
      Except.ok
        { job_id := "j1", manifest_key := "s3://b/p/m.json", resource_count := 2 } ∧
    ∀ e : Api.ApiError,
      ¬ (Ingest.ingest_job Samples.cachedState Samples.badBodyReq "jNew" 9
          Samples.traceFn).1 = Except.error e := by
  refine ⟨rfl, rfl, ?_⟩
  intro e h
  rw [show (Ingest.ingest_job Samples.cachedState Samples.badBodyReq "jNew" 9
      Samples.traceFn).1 = Except.ok
        { job_id := "j1", manifest_key := "s3://b/p/m.json", resource_count := 2 }
    from rfl] at h
  exact absurd h (by simp)

/-- C3: an accepted POST on the non-idempotency-hit path stores under the
fresh job id a snapshot with status Queued, resource_total equal to the
submitted manifest resource count, zero completed, zero failed, no errors
and created_at equal to updated_at; the response carries that job id and
count. -/
theorem accepted_job_snapshot (st : Ingest.AppState) (req : Ingest.IngestRequest)
    (j : String) (now : Nat) (tr : Nat → String)
    (r : Api.JobAcceptedResponse) (st2 : Ingest.AppState)
    (hmiss : Ingest.idem_cached st (Ingest.norm_header req.idempotency_key) = none)
    (hok : Ingest.ingest_job st req j now tr = (Except.ok r, st2)) :
    r.job_id = j ∧
    ∃ m t, req.body = some m ∧ Ingest.norm_header req.tenant = some t ∧
      st2.store.get j = Except.ok (some
        { job_id := j, status := Api.JobStatus.Queued,
          created_at := now, updated_at := now,
          resource_total := m.resources.length,
          resource_completed := 0, resource_failed := 0,
          manifest_key := Ingest.manifest_key_of st.bucket m,
          errors := [], tenant := t }) ∧
      r.resource_count = m.resources.length := by
  obtain ⟨_, hcases⟩ := ingest_ok_cases st req j now tr r st2 hok
  rcases hcases with ⟨snap, hcache, _, _⟩ | ⟨_, cfg, t, m, _, hten, hbody, _, hfresh⟩
  · rw [hmiss] at hcache
    exact absurd hcache (by simp)
  · have hr : r =
        { job_id := j,
          manifest_key := Ingest.manifest_key_of st.bucket m,
          resource_count := m.resources.length } := by
      have h2 := congrArg Prod.fst hfresh
      rw [ingest_fresh_fst] at h2
      exact Except.ok.inj h2.symm
    have hst2 : st2 = (Ingest.ingest_fresh st cfg t
        (Ingest.norm_header req.idempotency_key) m j now tr).2 :=
      (congrArg Prod.snd hfresh).symm
    refine ⟨by rw [hr], m, t, hbody, hten, ?_, by rw [hr]⟩
    rw [hst2, ingest_fresh_store]
    exact get_upsert_self _ _

/-- Witness for the C3 theorem: a fresh accept over a stale orphan pointer
state (the lookup misses because the snapshot is absent). -/
theorem accepted_job_snapshot_witness :
    Ingest.idem_cached Samples.orphanState
      (Ingest.norm_header Samples.goodReq.idempotency_key) = none ∧
    ((Ingest.ingest_job Samples.orphanState Samples.goodReq "jA" 5 Samples.traceFn).1 =
      Except.ok
        { job_id := "jA", manifest_key := "s3://b/p/m.json", resource_count := 2 }) ∧
    ("jA" = "jA" ∧
    ∃ m t, Samples.goodReq.body = some m ∧
      Ingest.norm_header Samples.goodReq.tenant = some t ∧
      (Ingest.ingest_job Samples.orphanState Samples.goodReq "jA" 5
        Samples.traceFn).2.store.get "jA" = Except.ok (some
        { job_id := "jA", status := Api.JobStatus.Queued,
          created_at := 5, updated_at := 5,
          resource_total := m.resources.length,
          resource_completed := 0, resource_failed := 0,
          manifest_key := Ingest.manifest_key_of Samples.orphanState.bucket m,
          errors := [], tenant := t }) ∧
      (2 : Nat) = m.resources.length) := by
  refine ⟨rfl, rfl, ?_⟩
  have h := accepted_job_snapshot Samples.orphanState Samples.goodReq "jA" 5
    Samples.traceFn
    { job_id := "jA", manifest_key := "s3://b/p/m.json", resource_count := 2 }
    (Ingest.ingest_job Samples.orphanState Samples.goodReq "jA" 5 Samples.traceFn).2
    rfl rfl
  exact h

/-- C1: when a POST carrying a non-empty idempotency key is accepted, a
second POST with the same key and valid headers receives the very same
response (same job_id, manifest_key and resource_count, the count equal to
the stored snapshot resource_total) and leaves the state untouched: no
enqueue, no upload, no upsert. -/
theorem idempotent_replay (st : Ingest.AppState) (req1 req2 : Ingest.IngestRequest)
    (j : String) (now : Nat) (tr : Nat → String)
    (j2 : String) (now2 : Nat) (tr2 : Nat → String)
    (r1 : Api.JobAcceptedResponse) (st2 : Ingest.AppState) (k : String)
    (hk1 : req1.idempotency_key = some k) (hknz : ¬ k = "")
    (h1 : Ingest.ingest_job st req1 j now tr = (Except.ok r1, st2))
    (hct2 : ∃ ct, req2.content_type = some ct ∧ Ingest.content_type_ok ct = true)
    (hten2 : ∃ t, req2.tenant = some t ∧ ¬ t = "")
    (hk2 : req2.idempotency_key = some k) :
    Ingest.ingest_job st2 req2 j2 now2 tr2 = (Except.ok r1, st2) ∧
    ∃ snap, Ingest.idem_cached st2 (some k) = some snap ∧
      r1.job_id = snap.job_id ∧ r1.manifest_key = snap.manifest_key ∧
      r1.resource_count = snap.resource_total := by
  obtain ⟨ct2, hct2v, hct2ok⟩ := hct2
  have hnorm1 : Ingest.norm_header req1.idempotency_key = some k := by
    rw [hk1]; exact norm_header_some k hknz
  have hnorm2 : Ingest.norm_header req2.idempotency_key = some k := by
    rw [hk2]; exact norm_header_some k hknz
  obtain ⟨⟨cfg, hreg⟩, hcases⟩ := ingest_ok_cases st req1 j now tr r1 st2 h1
  rcases hcases with ⟨snap, hcache, hr, hst⟩ | ⟨_, cfg2, t, m, _, _, _, _, hfresh⟩
  · rw [hnorm1] at hcache
    have hrun := ingest_hit st2 req2 j2 now2 tr2 ct2 snap hct2v hct2ok
      ⟨cfg, by rw [hst]; exact hreg⟩ hten2
      (by rw [hnorm2, hst]; exact hcache)
    refine ⟨?_, snap, by rw [hst]; exact hcache, by rw [hr], by rw [hr], by rw [hr]⟩
    rw [hrun, hr]
  · rw [hnorm1] at hfresh
    have hst2 : st2 = (Ingest.ingest_fresh st cfg2 t (some k) m j now tr).2 :=
      (congrArg Prod.snd hfresh).symm
    have hr : r1 =
        { job_id := j,
          manifest_key := Ingest.manifest_key_of st.bucket m,
          resource_count := m.resources.length } := by
      have h2 := congrArg Prod.fst hfresh
      rw [ingest_fresh_fst] at h2
      exact Except.ok.inj h2.symm
    have hget : ((st.store.remember_idempotency k j).upsert
        (Ingest.fresh_snapshot t m j now (Ingest.manifest_key_of st.bucket m))).get j =
        Except.ok (some (Ingest.fresh_snapshot t m j now
          (Ingest.manifest_key_of st.bucket m))) := get_upsert_self _ _
    have hcache2 : Ingest.idem_cached st2 (some k) = some
        (Ingest.fresh_snapshot t m j now (Ingest.manifest_key_of st.bucket m)) := by
      simp only [Ingest.idem_cached, hst2, ingest_fresh_store]
      rw [get_idempotent_upsert, get_idempotent_remember_same]
      simp only [hget]
    have hreg2 : st2.registry_default = some cfg := by
      rw [hst2, ingest_fresh_registry, hreg]
    have hrun := ingest_hit st2 req2 j2 now2 tr2 ct2
      (Ingest.fresh_snapshot t m j now (Ingest.manifest_key_of st.bucket m))
      hct2v hct2ok ⟨cfg, hreg2⟩ hten2 (by rw [hnorm2]; exact hcache2)
    refine ⟨?_, _, hcache2, by rw [hr]; rfl, by rw [hr]; rfl, by rw [hr]; rfl⟩
    rw [hrun, hr]
    rfl

/-- Witness for the C1 theorem: replaying key k1 against a state that
already caches it returns the cached response both times and leaves the
state unchanged. -/
theorem idempotent_replay_witness :
    Samples.goodReq.idempotency_key = some "k1" ∧ ¬ "k1" = "" ∧
    Ingest.ingest_job Samples.cachedState Samples.goodReq "jA" 1 Samples.traceFn =
      (Except.ok
        { job_id := "j1", manifest_key := "s3://b/p/m.json", resource_count := 2 },
       Samples.cachedState) ∧
    (Ingest.ingest_job Samples.cachedState Samples.goodReq "jB" 2 Samples.traceFn =
      (Except.ok
        { job_id := "j1", manifest_key := "s3://b/p/m.json", resource_count := 2 },
       Samples.cachedState) ∧
    ∃ snap, Ingest.idem_cached Samples.cachedState (some "k1") = some snap ∧
      ({ job_id := "j1", manifest_key := "s3://b/p/m.json",
         resource_count := 2 : Api.JobAcceptedResponse }).job_id = snap.job_id ∧
      ({ job_id := "j1", manifest_key := "s3://b/p/m.json",
         resource_count := 2 : Api.JobAcceptedResponse }).manifest_key =
        snap.manifest_key ∧
      ({ job_id := "j1", manifest_key := "s3://b/p/m.json",
         resource_count := 2 : Api.JobAcceptedResponse }).resource_count =
        snap.resource_total) :=
  ⟨rfl, by decide, rfl,
    idempotent_replay Samples.cachedState Samples.goodReq Samples.goodReq
      "jA" 1 Samples.traceFn "jB" 2 Samples.traceFn
      { job_id := "j1", manifest_key := "s3://b/p/m.json", resource_count := 2 }
      Samples.cachedState "k1" rfl (by decide) rfl
      ⟨"application/json", rfl, by decide⟩ ⟨"t", rfl, by decide⟩ rfl⟩

/-- C10: a stale orphan idempotency pointer (key maps to a job id whose
snapshot lookup yields Ok(None) or an error) does not fail the request and
is not served from cache: the request proceeds as a fresh submission,
creating the new job and overwriting the idempotency mapping with the new
job id. -/
theorem stale_idem_pointer_fresh (st : Ingest.AppState) (req : Ingest.IngestRequest)
    (j : String) (now : Nat) (tr : Nat → String)
    (k jid ct t : String) (m : Api.Manifest) (cfg : Handlers.HandlerConfig)
    (hct : req.content_type = some ct) (hctok : Ingest.content_type_ok ct = true)
    (hreg : st.registry_default = some cfg)
    (hten : req.tenant = some t) (htnz : ¬ t = "")
    (hk : req.idempotency_key = some k) (hknz : ¬ k = "")
    (hidem : st.store.get_idempotent k = some jid)
    (hbad : st.store.get jid = Except.ok none ∨ st.store.get jid = Except.error ())
    (hbody : req.body = some m) (hval : Api.validate_manifest m = Except.ok ()) :
    Ingest.ingest_job st req j now tr =
      (Except.ok
        { job_id := j,
          manifest_key := Ingest.manifest_key_of st.bucket m,
          resource_count := m.resources.length },
       (Ingest.ingest_fresh st cfg t (some k) m j now tr).2) ∧
    (Ingest.ingest_fresh st cfg t (some k) m j now tr).2.store.get_idempotent k =
      some j ∧
    (Ingest.ingest_fresh st cfg t (some k) m j now tr).2.store.get j =
      Except.ok (some (Ingest.fresh_snapshot t m j now
        (Ingest.manifest_key_of st.bucket m))) := by
  have hnorm : Ingest.norm_header req.idempotency_key = some k := by
    rw [hk]; exact norm_header_some k hknz
  have hmiss : Ingest.idem_cached st (Ingest.norm_header req.idempotency_key) = none := by
    rw [hnorm]
    simp only [Ingest.idem_cached, hidem]
    rcases hbad with hb | hb
    · rw [hb]
    · rw [hb]
  rw [hnorm] at hmiss
  refine ⟨?_, ?_, ?_⟩
  · simp only [Ingest.ingest_job, hct, hreg]
    rw [if_neg (not_not_intro hctok)]
    simp only [hten, norm_header_some t htnz, hnorm, hmiss, hbody, hval]
    rw [← ingest_fresh_fst st cfg t (some k) m j now tr]
  · rw [ingest_fresh_store, get_idempotent_upsert, get_idempotent_remember_same]
  · rw [ingest_fresh_store]
    exact get_upsert_self _ _

/-- Witness for the C10 theorem: the orphan state, whose key k1 points at
the absent job j1, accepts the request as a fresh submission. -/
theorem stale_idem_pointer_fresh_witness :
    Samples.orphanState.store.get_idempotent "k1" = some "j1" ∧
    Samples.orphanState.store.get "j1" = Except.ok none ∧
    (Ingest.ingest_job Samples.orphanState Samples.goodReq "jA" 5 Samples.traceFn =
      (Except.ok
        { job_id := "jA",
          manifest_key := Ingest.manifest_key_of Samples.orphanState.bucket
            Samples.okManifest,
          resource_count := Samples.okManifest.resources.length },
       (Ingest.ingest_fresh Samples.orphanState Samples.cfgDefault "t" (some "k1")
          Samples.okManifest "jA" 5 Samples.traceFn).2) ∧
    (Ingest.ingest_fresh Samples.orphanState Samples.cfgDefault "t" (some "k1")
        Samples.okManifest "jA" 5 Samples.traceFn).2.store.get_idempotent "k1" =
      some "jA" ∧
    (Ingest.ingest_fresh Samples.orphanState Samples.cfgDefault "t" (some "k1")
        Samples.okManifest "jA" 5 Samples.traceFn).2.store.get "jA" =
      Except.ok (some (Ingest.fresh_snapshot "t" Samples.okManifest "jA" 5
        (Ingest.manifest_key_of Samples.orphanState.bucket Samples.okManifest)))) :=
  ⟨rfl, rfl,
    stale_idem_pointer_fresh Samples.orphanState Samples.goodReq "jA" 5 Samples.traceFn
      "k1" "j1" "application/json" "t" Samples.okManifest Samples.cfgDefault
      rfl (by decide) rfl rfl (by decide) rfl (by decide) rfl (Or.inl rfl) rfl
      (by decide)⟩

/-- A fallback fold that starts from an exhausted accumulator stays
exhausted. -/
theorem foldl_resolve_none
    (f : String → List String → List (List Config.ProxyEndpoint) →
      Option (Except Config.ResolverError
        (List String × List (List Config.ProxyEndpoint))))
    (fbs : List String) :
    fbs.foldl (Config.resolve_step f) none = none := by
  induction fbs with
  | nil => rfl
  | cons fb fbs ih => simpa [Config.resolve_step] using ih

/-- A fallback fold that starts from an error keeps that error. -/
theorem foldl_resolve_error
    (f : String → List String → List (List Config.ProxyEndpoint) →
      Option (Except Config.ResolverError
        (List String × List (List Config.ProxyEndpoint))))
    (e : Config.ResolverError) (fbs : List String) :
    fbs.foldl (Config.resolve_step f) (some (Except.error e)) =
      some (Except.error e) := by
  induction fbs with
  | nil => rfl
  | cons fb fbs ih => simpa [Config.resolve_step] using ih

/-- A successful lookup key is among the keys of the association list. -/
theorem kvGet_some_mem {κ α : Type} [DecidableEq κ] (l : List (κ × α)) (k : κ)
    (v : α) (h : kvGet l k = some v) : k ∈ l.map Prod.fst := by
  induction l with
  | nil => simp [kvGet] at h
  | cons p rest ih =>
    by_cases hp : p.1 = k
    · simp [hp]
    · have hd : (decide (p.1 = k)) = false := by simpa using hp
      simp only [kvGet, List.find?_cons, hd] at h
      simp only [List.map_cons, List.mem_cons]
      exact Or.inr (ih h)

/-- Filtering with a stronger predicate keeps at most as many elements. -/
theorem filter_length_mono {α : Type} (p q : α → Bool)
    (himp : ∀ a, p a = true → q a = true) :
    ∀ (l : List α), (l.filter p).length ≤ (l.filter q).length := by
  intro l
  induction l with
  | nil => simp
  | cons b bl ih =>
    cases hpb : p b with
    | true =>
      rw [List.filter_cons, if_pos hpb, List.filter_cons, if_pos (himp b hpb)]
      simpa using ih
    | false =>
      cases hqb : q b with
      | true =>
        rw [List.filter_cons, if_neg (by simp [hpb]), List.filter_cons, if_pos hqb]
        simp only [List.length_cons]
        omega
      | false =>
        rw [List.filter_cons, if_neg (by simp [hpb]),
          List.filter_cons, if_neg (by simp [hqb])]
        exact ih

/-- Filtering with a strictly stronger predicate, witnessed by a member the
weaker predicate keeps and the stronger rejects, keeps strictly fewer
elements. -/
theorem filter_length_lt {α : Type} (p q : α → Bool)
    (himp : ∀ a, p a = true → q a = true) :
    ∀ (l : List α) (a : α), a ∈ l → q a = true → p a = false →
      (l.filter p).length < (l.filter q).length := by
  intro l
  induction l with
  | nil => intro a ha; simp at ha
  | cons b bl ih =>
    intro a ha hqa hpa
    cases hpb : p b with
    | true =>
      rw [List.filter_cons, if_pos hpb, List.filter_cons, if_pos (himp b hpb)]
      simp only [List.length_cons]
      have hab : a ∈ bl := by
        rcases List.mem_cons.mp ha with rfl | h
        · rw [hpa] at hpb; exact absurd hpb (by simp)
        · exact h
      have := ih a hab hqa hpa
      omega
    | false =>
      cases hqb : q b with
      | true =>
        rw [List.filter_cons, if_neg (by simp [hpb]), List.filter_cons, if_pos hqb]
        simp only [List.length_cons]
        have := filter_length_mono p q himp bl
        omega
      | false =>
        rw [List.filter_cons, if_neg (by simp [hpb]),
          List.filter_cons, if_neg (by simp [hqb])]
        have hab : a ∈ bl := by
          rcases List.mem_cons.mp ha with rfl | h
          · rw [hqa] at hqb; exact absurd hqb (by simp)
          · exact h
        exact ih a hab hqa hpa

/-- The visited set only grows along resolve_recursive. -/
theorem resolve_subset : ∀ (fuel : Nat) (g : Config.ProxyGraph) (cur : String)
    (visited : List String) (tiers : List (List Config.ProxyEndpoint))
    (v2 : List String) (t2 : List (List Config.ProxyEndpoint)),
    Config.resolve_recursive g fuel cur visited tiers =
      some (Except.ok (v2, t2)) →
    ∀ x, visited.contains x = true → v2.contains x = true := by
  intro fuel
  induction fuel with
  | zero =>
    intro g cur visited tiers v2 t2 h
    simp [Config.resolve_recursive] at h
  | succ fuel ih =>
    intro g cur visited tiers v2 t2 h x hx
    simp only [Config.resolve_recursive] at h
    by_cases hc : visited.contains (Config.stripPoolsPrefix cur) = true
    · rw [if_pos hc] at h
      exact absurd h (by simp)
    · rw [if_neg hc] at h
      cases hk : kvGet g.pools (Config.stripPoolsPrefix cur) with
      | none =>
        rw [hk] at h
        exact absurd h (by simp)
      | some pool =>
        rw [hk] at h
        have inner : ∀ (fbs : List String) (v1 : List String)
            (t1 : List (List Config.ProxyEndpoint)),
            v1.contains x = true →
            fbs.foldl (Config.resolve_step
                (fun fb v t => Config.resolve_recursive g fuel fb v t))
              (some (Except.ok (v1, t1))) = some (Except.ok (v2, t2)) →
            v2.contains x = true := by
          intro fbs
          induction fbs with
          | nil =>
            intro v1 t1 hx1 hf
            simp only [List.foldl_nil] at hf
            obtain ⟨h1, _⟩ := Prod.mk.injEq .. |>.mp (Except.ok.inj (Option.some.inj hf))
            rw [← h1]
            exact hx1
          | cons fb fbs ihf =>
            intro v1 t1 hx1 hf
            simp only [List.foldl_cons, Config.resolve_step] at hf
            cases hr : Config.resolve_recursive g fuel fb v1 t1 with
            | none =>
              rw [hr, foldl_resolve_none] at hf
              exact absurd hf (by simp)
            | some r =>
              cases r with
              | error e =>
                rw [hr, foldl_resolve_error] at hf
                exact absurd hf (by simp)
              | ok vt =>
                obtain ⟨vm, tm⟩ := vt
                rw [hr] at hf
                exact ihf vm tm (ih g fb v1 t1 vm tm hr x hx1) hf
        refine inner pool.fallbacks (Config.stripPoolsPrefix cur :: visited) _ ?_ h
        rw [List.contains_cons, Bool.or_eq_true]
        exact Or.inr hx

/-- With fuel exceeding the number of not-yet-visited pools,
resolve_recursive never exhausts its fuel. -/
theorem resolve_fuel_sufficient : ∀ (fuel : Nat) (g : Config.ProxyGraph)
    (cur : String) (visited : List String)
    (tiers : List (List Config.ProxyEndpoint)),
    Config.countNew g visited < fuel →
    (Config.resolve_recursive g fuel cur visited tiers).isSome = true := by
  intro fuel
  induction fuel with
  | zero =>
    intro g cur visited tiers hlt
    omega
  | succ fuel ih =>
    intro g cur visited tiers hlt
    simp only [Config.resolve_recursive]
    by_cases hc : visited.contains (Config.stripPoolsPrefix cur) = true
    · rw [if_pos hc]
      rfl
    · rw [if_neg hc]
      cases hk : kvGet g.pools (Config.stripPoolsPrefix cur) with
      | none => rfl
      | some pool =>
        have hmem := kvGet_some_mem g.pools (Config.stripPoolsPrefix cur) pool hk
        have hcf : visited.contains (Config.stripPoolsPrefix cur) = false := by
          cases hb : visited.contains (Config.stripPoolsPrefix cur) with
          | false => rfl
          | true => exact absurd hb hc
        have hdec : Config.countNew g (Config.stripPoolsPrefix cur :: visited) <
            Config.countNew g visited := by
          refine filter_length_lt _ _ ?_ (g.pools.map Prod.fst)
            (Config.stripPoolsPrefix cur) hmem ?_ ?_
          · intro a ha
            rw [Bool.not_eq_true'] at ha ⊢
            rw [List.contains_cons, Bool.or_eq_false_iff] at ha
            exact ha.2
          · rw [Bool.not_eq_true']
            exact hcf
          · simp [List.contains_cons]
        have inner : ∀ (fbs : List String) (v1 : List String)
            (t1 : List (List Config.ProxyEndpoint)),
            Config.countNew g v1 < fuel →
            (fbs.foldl (Config.resolve_step
                (fun fb v t => Config.resolve_recursive g fuel fb v t))
              (some (Except.ok (v1, t1)))).isSome = true := by
          intro fbs
          induction fbs with
          | nil => intro v1 t1 _; rfl
          | cons fb fbs ihf =>
            intro v1 t1 hv1
            simp only [List.foldl_cons, Config.resolve_step]
            have hhead := ih g fb v1 t1 hv1
            cases hr : Config.resolve_recursive g fuel fb v1 t1 with
            | none =>
              rw [hr] at hhead
              exact absurd hhead (by simp)
            | some r =>
              cases r with
              | error e =>
                rw [foldl_resolve_error]
                rfl
              | ok vt =>
                obtain ⟨vm, tm⟩ := vt
                have hsub := resolve_subset fuel g fb v1 t1 vm tm hr
                have hmono : Config.countNew g vm ≤ Config.countNew g v1 := by
                  refine filter_length_mono _ _ ?_ (g.pools.map Prod.fst)
                  intro a ha
                  rw [Bool.not_eq_true'] at ha ⊢
                  cases hv : v1.contains a with
                  | false => rfl
                  | true => rw [hsub a hv] at ha; exact absurd ha (by simp)
                exact ihf vm tm (by omega)
        exact inner pool.fallbacks (Config.stripPoolsPrefix cur :: visited) _
          (by omega)

/-- A spec-DFS fold that starts from an exhausted accumulator stays
exhausted. -/
theorem foldl_spec_none
    (f : String → List String →
      Option (Except Config.ResolverError (List String)))
    (fbs : List String) :
    fbs.foldl (Config.spec_step f) none = none := by
  induction fbs with
  | nil => rfl
  | cons fb fbs ih => simpa [Config.spec_step] using ih

/-- A spec-DFS fold that starts from an error keeps that error. -/
theorem foldl_spec_error
    (f : String → List String →
      Option (Except Config.ResolverError (List String)))
    (e : Config.ResolverError) (fbs : List String) :
    fbs.foldl (Config.spec_step f) (some (Except.error e)) =
      some (Except.error e) := by
  induction fbs with
  | nil => rfl
  | cons fb fbs ih => simpa [Config.spec_step] using ih

/-- The resolver refines the spec-words DFS: forgetting the tiers, the
outcome of resolve_recursive (fuel exhaustion, PoolNotFound, CycleDetected
with its payload, or success with the set of reached pools) is exactly the
outcome of the spec DFS.  In particular the resolver fails with
CycleDetected p exactly when the DFS reaches pool p a second time. -/
theorem resolve_classifies : ∀ (fuel : Nat) (g : Config.ProxyGraph) (cur : String)
    (visited : List String) (tiers : List (List Config.ProxyEndpoint)),
    (Config.resolve_recursive g fuel cur visited tiers).map (Except.map Prod.fst) =
      Config.spec_dfs g fuel cur visited := by
  intro fuel
  induction fuel with
  | zero => intro g cur visited tiers; rfl
  | succ fuel ih =>
    intro g cur visited tiers
    simp only [Config.resolve_recursive, Config.spec_dfs]
    by_cases hc : visited.contains (Config.stripPoolsPrefix cur) = true
    · rw [if_pos hc, if_pos hc]
      rfl
    · rw [if_neg hc, if_neg hc]
      cases hk : kvGet g.pools (Config.stripPoolsPrefix cur) with
      | none => rfl
      | some pool =>
        have inner : ∀ (fbs : List String) (v1 : List String)
            (t1 : List (List Config.ProxyEndpoint)),
            (fbs.foldl (Config.resolve_step
                (fun fb v t => Config.resolve_recursive g fuel fb v t))
              (some (Except.ok (v1, t1)))).map (Except.map Prod.fst) =
            fbs.foldl (Config.spec_step
                (fun fb v => Config.spec_dfs g fuel fb v))
              (some (Except.ok v1)) := by
          intro fbs
          induction fbs with
          | nil => intro v1 t1; rfl
          | cons fb fbs ihf =>
            intro v1 t1
            simp only [List.foldl_cons, Config.resolve_step, Config.spec_step]
            cases hr : Config.resolve_recursive g fuel fb v1 t1 with
            | none =>
              have hs2 : Config.spec_dfs g fuel fb v1 = none := by
                rw [← ih g fb v1 t1, hr]
                rfl
              rw [hs2, foldl_resolve_none, foldl_spec_none]
              rfl
            | some r =>
              cases r with
              | error e =>
                have hs2 : Config.spec_dfs g fuel fb v1 = some (Except.error e) := by
                  rw [← ih g fb v1 t1, hr]
                  rfl
                rw [hs2, foldl_resolve_error, foldl_spec_error]
                rfl
              | ok vt =>
                obtain ⟨vm, tm⟩ := vt
                have hs2 : Config.spec_dfs g fuel fb v1 = some (Except.ok vm) := by
                  rw [← ih g fb v1 t1, hr]
                  rfl
                rw [hs2]
                exact ihf vm tm
        exact inner pool.fallbacks _ _

/-- At the top-level entry point: resolve fails with CycleDetected p if and
only if the spec-words DFS from the same pool reaches pool p a second
time. -/
theorem resolve_cycle_iff (g : Config.ProxyGraph) (name p : String) :
    g.resolve name =
        some (Except.error (Config.ResolverError.CycleDetected p)) ↔
      Config.spec_dfs g (g.pools.length + 1) name [] =
        some (Except.error (Config.ResolverError.CycleDetected p)) := by
  constructor
  · intro h
    cases hR : Config.resolve_recursive g (g.pools.length + 1) name [] [] with
    | none =>
      rw [Config.ProxyGraph.resolve, hR] at h
      exact absurd h (by simp)
    | some r =>
      cases r with
      | ok vt =>
        rw [Config.ProxyGraph.resolve, hR] at h
        simp [Except.map] at h
      | error e =>
        rw [Config.ProxyGraph.resolve, hR] at h
        have he : e = Config.ResolverError.CycleDetected p := by
          simpa [Except.map] using h
        rw [← resolve_classifies (g.pools.length + 1) g name [] [], hR, he]
        rfl
  · intro h
    rw [← resolve_classifies (g.pools.length + 1) g name [] []] at h
    cases hR : Config.resolve_recursive g (g.pools.length + 1) name [] [] with
    | none =>
      rw [hR] at h
      exact absurd h (by simp)
    | some r =>
      cases r with
      | ok vt =>
        rw [hR] at h
        simp [Except.map] at h
      | error e =>
        rw [hR] at h
        have he : e = Config.ResolverError.CycleDetected p := by
          simpa [Except.map] using h
        rw [Config.ProxyGraph.resolve, hR, he]
        rfl

/-- resolve terminates (never exhausts its fuel) on every input. -/
theorem resolve_total (g : Config.ProxyGraph) (name : String) :
    (g.resolve name).isSome = true := by
  have h := resolve_fuel_sufficient (g.pools.length + 1) g name [] []
    (by
      have hle : Config.countNew g [] ≤ (g.pools.map Prod.fst).length :=
        List.length_filter_le _ _
      rw [List.length_map] at hle
      omega)
  simp only [Config.ProxyGraph.resolve]
  cases ho : Config.resolve_recursive g (g.pools.length + 1) name [] [] with
  | none =>
    rw [ho] at h
    exact absurd h (by simp)
  | some r => rfl

/-- C5 (amended): resolve terminates on every pool configuration and start
pool, and it fails with CycleDetected — whose payload is the single
normalized name of the offending pool — exactly when the DFS from the
start pool reaches some pool a second time anywhere in the traversal: the
visited set is global and never cleared, as the refinement against the
spec-words DFS states in both directions.  Hence the acyclic diamond (D
reachable from A through both B and C) fails exactly like the genuine
two-pool cycle, while the linear chain, whose reachable fallback graph is
a tree, resolves successfully with one tier per pool in DFS order. -/
theorem resolve_characterization :
    (∀ (g : Config.ProxyGraph) (name : String), (g.resolve name).isSome = true) ∧
    (∀ (fuel : Nat) (g : Config.ProxyGraph) (cur : String)
      (visited : List String) (tiers : List (List Config.ProxyEndpoint)),
      (Config.resolve_recursive g fuel cur visited tiers).map
          (Except.map Prod.fst) =
        Config.spec_dfs g fuel cur visited) ∧
    (∀ (g : Config.ProxyGraph) (name p : String),
      g.resolve name =
          some (Except.error (Config.ResolverError.CycleDetected p)) ↔
        Config.spec_dfs g (g.pools.length + 1) name [] =
          some (Except.error (Config.ResolverError.CycleDetected p))) ∧
    Config.ProxyGraph.resolve Samples.diamondPools "A" =
      some (Except.error (Config.ResolverError.CycleDetected "D")) ∧
    Config.ProxyGraph.resolve Samples.cyclePools "A" =
      some (Except.error (Config.ResolverError.CycleDetected "A")) ∧
    Config.ProxyGraph.resolve Samples.chainPools "A" =
      some (Except.ok
        { tiers := [[{ uri := "http://a:8080" }], [{ uri := "http://b:8080" }],
          [{ uri := "http://c:8080" }]] }) :=
  ⟨resolve_total, resolve_classifies, resolve_cycle_iff, by decide, by decide,
    by decide⟩

/-- With enough fuel, the fuel-indexed digit helper computes the standard
base-10 digit list. -/
theorem decDigitsAux_eq_digits :
    ∀ (fuel n : Nat), n ≤ fuel → Ledger.decDigitsAux fuel n = Nat.digits 10 n := by
  intro fuel
  induction fuel with
  | zero =>
    intro n hn
    interval_cases n
    simp [Ledger.decDigitsAux]
  | succ fuel ih =>
    intro n hn
    cases n with
    | zero => simp [Ledger.decDigitsAux]
    | succ n =>
      rw [Ledger.decDigitsAux]
      rw [Nat.digits_def' (by omega : (1:Nat) < 10) (Nat.succ_pos n)]
      have hdiv : (n + 1) / 10 ≤ fuel := by
        have := Nat.div_lt_self (Nat.succ_pos n) (by omega : (1:Nat) < 10)
        omega
      rw [ih ((n + 1) / 10) hdiv]

/-- decDigits agrees with the standard digit list. -/
theorem decDigits_eq_digits (n : Nat) : Ledger.decDigits n = Nat.digits 10 n :=
  decDigitsAux_eq_digits n n (Nat.le_refl n)

/-- The digit fold relative to an arbitrary accumulator. -/
theorem valDigits_foldl_acc :
    ∀ (l : List Nat) (acc : Nat),
      l.foldl (fun acc d => 10 * acc + d) acc =
        acc * 10 ^ l.length + Ledger.valDigits l := by
  intro l
  induction l with
  | nil => intro acc; simp [Ledger.valDigits]
  | cons d rest ih =>
    intro acc
    simp only [List.foldl_cons]
    rw [ih (10 * acc + d)]
    have h2 : Ledger.valDigits (d :: rest) =
        (10 * 0 + d) * 10 ^ rest.length + Ledger.valDigits rest := by
      calc Ledger.valDigits (d :: rest) =
          rest.foldl (fun acc d => 10 * acc + d) (10 * 0 + d) := rfl
      _ = (10 * 0 + d) * 10 ^ rest.length + Ledger.valDigits rest :=
          ih (10 * 0 + d)
    rw [h2]
    simp only [List.length_cons]
    ring

/-- The value of a cons in terms of its head and tail. -/
theorem valDigits_cons (d : Nat) (l : List Nat) :
    Ledger.valDigits (d :: l) = d * 10 ^ l.length + Ledger.valDigits l := by
  calc Ledger.valDigits (d :: l) =
      l.foldl (fun acc d => 10 * acc + d) (10 * 0 + d) := rfl
  _ = (10 * 0 + d) * 10 ^ l.length + Ledger.valDigits l :=
      valDigits_foldl_acc l (10 * 0 + d)
  _ = d * 10 ^ l.length + Ledger.valDigits l := by ring

/-- A digit list with all entries below 10 has value below 10 to its
length. -/
theorem valDigits_lt (l : List Nat) (h : ∀ d ∈ l, d < 10) :
    Ledger.valDigits l < 10 ^ l.length := by
  induction l with
  | nil => simp [Ledger.valDigits]
  | cons d rest ih =>
    rw [valDigits_cons]
    have hd : d < 10 := h d (by simp)
    have hrest := ih (fun x hx => h x (by simp [hx]))
    simp only [List.length_cons, pow_succ]
    have h1 : d * 10 ^ rest.length ≤ 9 * 10 ^ rest.length :=
      Nat.mul_le_mul_right _ (by omega)
    omega

/-- Leading zeros do not change the value. -/
theorem valDigits_replicate_zero (k : Nat) (l : List Nat) :
    Ledger.valDigits (List.replicate k 0 ++ l) = Ledger.valDigits l := by
  induction k with
  | zero => simp
  | succ k ih =>
    rw [List.replicate_succ, List.cons_append]
    simp only [Ledger.valDigits, List.foldl_cons]
    exact ih

/-- The reversed digit list of n evaluates back to n. -/
theorem valDigits_reverse_digits (n : Nat) :
    Ledger.valDigits ((Nat.digits 10 n).reverse) = n := by
  induction n using Nat.strong_induction_on with
  | _ n ih =>
    cases n with
    | zero => simp [Ledger.valDigits]
    | succ m =>
      rw [Nat.digits_def' (by omega : (1:Nat) < 10) (Nat.succ_pos m)]
      rw [List.reverse_cons]
      simp only [Ledger.valDigits, List.foldl_append, List.foldl_cons, List.foldl_nil]
      have ihd : Ledger.valDigits ((Nat.digits 10 ((m + 1) / 10)).reverse) =
          (m + 1) / 10 :=
        ih ((m + 1) / 10) (Nat.div_lt_self (Nat.succ_pos m) (by omega))
      simp only [Ledger.valDigits] at ihd
      rw [ihd]
      omega

/-- For n below 10 to the 16, the padded formatting has exactly 16 digits,
all below 10, and evaluates back to n. -/
theorem fmtPad_spec (n : Nat) (hn : n < 10 ^ 16) :
    (Ledger.fmtPad 16 n).length = 16 ∧
    (∀ d ∈ Ledger.fmtPad 16 n, d < 10) ∧
    Ledger.valDigits (Ledger.fmtPad 16 n) = n := by
  have hlen : (Nat.digits 10 n).length ≤ 16 := by
    rcases Nat.eq_zero_or_pos n with rfl | hpos
    · simp
    · have h1 : 10 ^ (Nat.digits 10 n).length ≤ 10 * n :=
        Nat.base_pow_length_digits_le 10 n (by omega) (by omega)
      have h2 : 10 * n < 10 ^ 17 := by
        calc 10 * n < 10 * 10 ^ 16 := by omega
        _ = 10 ^ 17 := by ring
      have h3 : 10 ^ (Nat.digits 10 n).length < 10 ^ 17 := by omega
      by_contra hcon
      have h4 : 17 ≤ (Nat.digits 10 n).length := by omega
      have h5 : (10:Nat) ^ 17 ≤ 10 ^ (Nat.digits 10 n).length :=
        Nat.pow_le_pow_right (by omega) h4
      omega
  rcases Nat.eq_zero_or_pos n with rfl | hpos
  · exact ⟨by decide, by decide, by decide⟩
  · have hne : n ≠ 0 := by omega
    have hfmt : Ledger.fmtPad 16 n =
        List.replicate (16 - (Nat.digits 10 n).length) 0 ++
          (Nat.digits 10 n).reverse := by
      simp only [Ledger.fmtPad, decDigits_eq_digits, if_neg hne, List.length_reverse]
    rw [hfmt]
    refine ⟨?_, ?_, ?_⟩
    · rw [List.length_append, List.length_replicate, List.length_reverse]
      omega
    · intro d hd
      rcases List.mem_append.mp hd with h | h
      · rw [List.eq_of_mem_replicate h]; omega
      · exact Nat.digits_lt_base (by omega) (List.mem_reverse.mp h)
    · rw [valDigits_replicate_zero, valDigits_reverse_digits]

/-- On equal-length digit lists with digits below 10, numeric order implies
byte order. -/
theorem bytesLt_of_valDigits_lt :
    ∀ (d1 d2 : List Nat), d1.length = d2.length →
      (∀ x ∈ d1, x < 10) → (∀ x ∈ d2, x < 10) →
      Ledger.valDigits d1 < Ledger.valDigits d2 →
      Ledger.bytesLt d1 d2 = true := by
  intro d1
  induction d1 with
  | nil =>
    intro d2 hlen _ _ hv
    cases d2 with
    | nil => simp [Ledger.valDigits] at hv
    | cons y ys => simp at hlen
  | cons x xs ih =>
    intro d2 hlen hx hy hv
    cases d2 with
    | nil => simp at hlen
    | cons y ys =>
      simp only [List.length_cons, Nat.succ.injEq] at hlen
      rw [valDigits_cons, valDigits_cons, hlen] at hv
      rcases Nat.lt_trichotomy x y with hxy | hxy | hxy
      · simp [Ledger.bytesLt, hxy]
      · subst hxy
        have hv2 : Ledger.valDigits xs < Ledger.valDigits ys := by omega
        simp only [Ledger.bytesLt, if_neg (Nat.lt_irrefl x), if_pos rfl]
        exact ih ys hlen (fun a ha => hx a (by simp [ha]))
          (fun a ha => hy a (by simp [ha])) hv2
      · exfalso
        have hys : Ledger.valDigits ys < 10 ^ ys.length :=
          valDigits_lt ys (fun a ha => hy a (by simp [ha]))
        have h1 : (y + 1) * 10 ^ ys.length ≤ x * 10 ^ ys.length :=
          Nat.mul_le_mul_right _ (by omega)
        have h2 : y * 10 ^ ys.length + Ledger.valDigits ys <
            (y + 1) * 10 ^ ys.length := by
          have : (y + 1) * 10 ^ ys.length = y * 10 ^ ys.length + 10 ^ ys.length := by
            ring
          omega
        omega

/-- A common prefix does not affect the byte order. -/
theorem bytesLt_append_left :
    ∀ (p l1 l2 : List Nat), Ledger.bytesLt (p ++ l1) (p ++ l2) =
      Ledger.bytesLt l1 l2 := by
  intro p
  induction p with
  | nil => intro l1 l2; rfl
  | cons a p ih =>
    intro l1 l2
    simp only [List.cons_append, Ledger.bytesLt, if_neg (Nat.lt_irrefl a), if_pos rfl]
    exact ih l1 l2

/-- Shifting every byte by the ASCII zero offset does not affect the byte
order. -/
theorem bytesLt_map_ascii :
    ∀ (l1 l2 : List Nat),
      Ledger.bytesLt (l1.map (fun d => 48 + d)) (l2.map (fun d => 48 + d)) =
      Ledger.bytesLt l1 l2 := by
  intro l1
  induction l1 with
  | nil =>
    intro l2
    cases l2 with
    | nil => rfl
    | cons y ys => rfl
  | cons x xs ih =>
    intro l2
    cases l2 with
    | nil => rfl
    | cons y ys =>
      simp only [List.map_cons, Ledger.bytesLt]
      by_cases hlt : x < y
      · rw [if_pos (by omega : 48 + x < 48 + y), if_pos hlt]
      · rw [if_neg (by omega : ¬ 48 + x < 48 + y), if_neg hlt]
        by_cases heq : x = y
        · rw [if_pos (by omega : 48 + x = 48 + y), if_pos heq]
          exact ih ys
        · rw [if_neg (by omega : ¬ 48 + x = 48 + y), if_neg heq]

/-- C9 (amended): for offsets below 10 to the 16 (the width the format pads
to), the encoded log key order agrees with numeric offset order under the
same job id, so a prefix scan yields those log entries in offset order;
offsets at or above 10 to the 16 overflow the fixed width and break the
property. -/
theorem encode_log_key_monotone (job : String) (a b : Nat)
    (hab : a < b) (hb : b < 10 ^ 16) :
    Ledger.bytesLt (Ledger.encode_log_key job a) (Ledger.encode_log_key job b) =
      true := by
  obtain ⟨hla, hda, hva⟩ := fmtPad_spec a (by omega)
  obtain ⟨hlb, hdb, hvb⟩ := fmtPad_spec b hb
  simp only [Ledger.encode_log_key]
  rw [bytesLt_append_left, bytesLt_map_ascii]
  refine bytesLt_of_valDigits_lt _ _ (by omega) hda hdb (by omega)

/-- Witness for the C9 amended theorem at offsets 1 and 2. -/
theorem encode_log_key_monotone_witness :
    (1 : Nat) < 2 ∧ (2 : Nat) < 10 ^ 16 ∧
    Ledger.bytesLt (Ledger.encode_log_key "j" 1) (Ledger.encode_log_key "j" 2) =
      true :=
  ⟨by omega, by norm_num, encode_log_key_monotone "j" 1 2 (by omega) (by norm_num)⟩

/-- C9 counterexample: at the 16-digit width boundary the padding stops
being fixed width, and the key for the larger offset 10 to the 16 sorts
before the key for 10 to the 16 minus 1. -/
theorem encode_log_key_order_counterexample :
    9999999999999999 < 10000000000000000 ∧
    Ledger.bytesLt (Ledger.encode_log_key "j" 9999999999999999)
      (Ledger.encode_log_key "j" 10000000000000000) = false ∧
    Ledger.bytesLt (Ledger.encode_log_key "j" 10000000000000000)
      (Ledger.encode_log_key "j" 9999999999999999) = true := by
  refine ⟨by norm_num, by decide, by decide⟩

/-- C5 counterexample: the diamond configuration is acyclic (no pool is
reachable from itself), yet resolve(A) fails with CycleDetected and its
payload is the single pool name D, not an arrow-joined path. -/
theorem resolve_diamond_counterexample :
    Config.ProxyGraph.resolve Samples.diamondPools "A" =
      some (Except.error (Config.ResolverError.CycleDetected "D")) ∧
    (kvGet Samples.diamondPools.pools "D").map Config.ProxyPoolConfig.fallbacks =
      some [] ∧
    (kvGet Samples.diamondPools.pools "B").map Config.ProxyPoolConfig.fallbacks =
      some ["D"] ∧
    (kvGet Samples.diamondPools.pools "C").map Config.ProxyPoolConfig.fallbacks =
      some ["D"] ∧
    (kvGet Samples.diamondPools.pools "A").map Config.ProxyPoolConfig.fallbacks =
      some ["B", "C"] := by
  refine ⟨by decide, by decide, by decide, by decide, by decide⟩

end FetchBox
